import Mathlib

/-!
selection_ui: a shallow embedding of `selection_ui.go`

The Go package is a terminal check-list: `Prompt` shows a list of options,
lets the user move a cursor, toggle options and confirm, and returns the
selection flags.

Modelling conventions

* Go `int` is `Int`.  Every integer the code computes is a terminal coordinate,
  a slice index or a byte offset into a string, so no computation comes near
  the 64-bit range and wrap-around is not modelled.  Go's `/` and `%` truncate
  towards zero: they are `Int.tdiv` and `Int.tmod`.
* A Go `string` is modelled by a Lean `String`, that is, by a string holding
  valid UTF-8.  `for i, r := range text` yields, for every decoded rune `r`,
  the *byte offset* `i` at which its encoding starts (`rangeString`).
* Run-time panics (index out of range, integer division by zero, `panic(err)`)
  are explicit: fallible functions return `Except Panic _`.
* The termbox library is the environment.  `termbox.Init` succeeds or fails as
  the environment says, `termbox.PollEvent` delivers the next element of a list
  of polls, `termbox.Size` reports the width carried by the poll, and
  `termbox.SetCell` calls are recorded as a list of `Cell`s in the order in
  which they are issued.  `termbox.Close` calls are counted in `Term`.
-/

namespace SelectionUi

/-! ## The termbox interface used by the code -/

/-- Run-time failures of the Go code. -/
inductive Panic where
  | indexOutOfRange
  | divideByZero
  | err (e : String)
  deriving DecidableEq, Repr

/-- The type tag of a `termbox.Event`. -/
inductive EventType where
  | EventKey
  | EventResize
  | EventMouse
  | EventError
  | EventInterrupt
  | EventRaw
  | EventNone
  deriving DecidableEq, Repr

/-- A `termbox.Key` is a 16-bit key code. -/
abbrev Key := Nat

def KeyCtrlC : Key := 0x03
def KeyEnter : Key := 0x0D
def KeyCtrlN : Key := 0x0E
def KeyCtrlP : Key := 0x10
def KeyEsc : Key := 0x1B
def KeySpace : Key := 0x20
def KeyArrowUp : Key := 0xFFFF - 18
def KeyArrowDown : Key := 0xFFFF - 19

/-- The fields of `termbox.Event` that `Run` reads: `Type`, `Key`, `Ch`, `Err`.
`Ch` is the rune of a printable key, the rune 0 when the key has none. -/
structure Event where
  typ : EventType
  Key : Key
  Ch : Char
  Err : Option String
  deriving DecidableEq, Repr

/-- The colour attributes the code passes to termbox. `ColorGreenBold` is
`termbox.ColorGreen | termbox.AttrBold`. -/
inductive Attribute where
  | ColorBlack
  | ColorWhite
  | ColorCyan
  | ColorRed
  | ColorGreenBold
  deriving DecidableEq, Repr

def defaultBg : Attribute := Attribute.ColorBlack
def defaultFg : Attribute := Attribute.ColorWhite
def headerMsg : String := "Select one or more"
def footerMsg : String :=
  "Move cursor with standard directionals; Select with SPACE; confirm with ENTER"

/-- One call `termbox.SetCell(x, y, ch, fg, bg)`. -/
structure Cell where
  x : Int
  y : Int
  ch : Char
  fg : Attribute
  bg : Attribute
  deriving DecidableEq, Repr

/-- What one turn of the main loop gets from termbox: the event returned by
`termbox.PollEvent()` and the width `termbox.Size()` reports during the redraw
that follows it. -/
structure Poll where
  ev : Event
  width : Int
  deriving DecidableEq, Repr

/-- The part of termbox's global state the claims are about: how often the
display was acquired (`termbox.Init` succeeded) and released (`termbox.Close`). -/
structure Term where
  inits : Nat
  closes : Nat
  deriving DecidableEq, Repr

/-! ## The widget state -/

/-- The Go struct `SelectionUI`. -/
structure SelectionUI where
  Options : List String
  ItemDescription : String
  Selections : List Bool
  cursorIdx : Int
  errorMessage : String
  deriving DecidableEq, Repr

/-- `NewSelectionUI`: `make([]bool, len(options))` is all false; the fields not
named in the literal get their zero values. -/
def NewSelectionUI (options : List String) (itemDesc : String) : SelectionUI :=
  { Options := options
    ItemDescription := itemDesc
    Selections := List.replicate options.length false
    cursorIdx := 0
    errorMessage := "" }

def setCursor (s : SelectionUI) (rowIdx : Int) : SelectionUI :=
  { s with cursorIdx := rowIdx }

def moveCursorUp (s : SelectionUI) : SelectionUI :=
  if s.cursorIdx > 0 then setCursor s (s.cursorIdx - 1) else s

def moveCursorDown (s : SelectionUI) : SelectionUI :=
  if s.cursorIdx < (s.Options.length : Int) - 1 then setCursor s (s.cursorIdx + 1) else s

/-- `toggleSelected`: `s.Selections[row] = !s.Selections[row]`; indexing a slice
outside `0 <= row < len` panics. -/
def toggleSelected (s : SelectionUI) (row : Int) : Except Panic SelectionUI :=
  if 0 ≤ row ∧ row < (s.Selections.length : Int) then
    match s.Selections.get? row.toNat with
    | some b => .ok { s with Selections := s.Selections.set row.toNat (!b) }
    | none => .error .indexOutOfRange
  else .error .indexOutOfRange

def toggleSelectedUnderCursor (s : SelectionUI) : Except Panic SelectionUI :=
  toggleSelected s s.cursorIdx

def isAnyTrue : List Bool → Bool
  | [] => false
  | b :: rest => if b then true else isAnyTrue rest

/-! ## Text layout -/

/-- Number of bytes in the UTF-8 encoding of a rune. -/
def runeLen (c : Char) : Nat :=
  if c.toNat < 0x80 then 1
  else if c.toNat < 0x800 then 2
  else if c.toNat < 0x10000 then 3
  else 4

/-- The pairs `(i, r)` of `for i, r := range text`, from byte offset `i` on. -/
def rangeFrom : Nat → List Char → List (Nat × Char)
  | _, [] => []
  | i, c :: cs => (i, c) :: rangeFrom (i + runeLen c) cs

/-- The pairs `(i, r)` produced by `for i, r := range text`. -/
def rangeString (text : String) : List (Nat × Char) :=
  rangeFrom 0 text.data

/-- The loop of `printText`. The second argument is the value of `y` before the
iteration; the result is the cells set, in order, and the final value of `y`. -/
def printTextLoop (originX originY wrapWidth : Int) (fg bg : Attribute) :
    List (Nat × Char) → Int → Except Panic (List Cell × Int)
  | [], y => .ok ([], y)
  | (i, r) :: rest, _ =>
    if wrapWidth = 0 then .error .divideByZero
    else
      let y := originY + Int.tdiv (i : Int) wrapWidth
      let x := originX + Int.tmod (i : Int) wrapWidth
      let x := if y > originY then x + 2 else x
      match printTextLoop originX originY wrapWidth fg bg rest y with
      | .error p => .error p
      | .ok (cells, y') => .ok (Cell.mk x y r fg bg :: cells, y')

/-- `printText`, with the width reported by `termbox.Size()` as first argument.
Returns the cells set and the returned row `y + 1`. -/
def printText (width originX originY : Int) (text : String) (fg bg : Attribute) :
    Except Panic (List Cell × Int) :=
  let wrapWidth := width - originX - 3
  match printTextLoop originX originY wrapWidth fg bg (rangeString text) originY with
  | .error p => .error p
  | .ok (cells, y) => .ok (cells, y + 1)

def printError (width x y : Int) (msg : String) : Except Panic (List Cell × Int) :=
  printText width x y msg Attribute.ColorRed defaultBg

def printHeader (s : SelectionUI) (width x y : Int) : Except Panic (List Cell × Int) :=
  printText width x y (headerMsg ++ " " ++ s.ItemDescription ++ ":") Attribute.ColorCyan defaultBg

def printFooter (width x y : Int) : Except Panic (List Cell × Int) :=
  printText width x y footerMsg Attribute.ColorCyan defaultBg

/-- The rune drawn in front of the option under the cursor. -/
def cursorGlyph : Char := '➜'

/-- The loop of `printOptions`: `i` is the index of the next option, `y` the
current row. -/
def printOptionsLoop (s : SelectionUI) (width x : Int) :
    Nat → List String → Int → Except Panic (List Cell × Int)
  | _, [], y => .ok ([], y)
  | i, option :: rest, y =>
    match s.Selections.get? i with
    | none => .error .indexOutOfRange
    | some sel =>
      let bgColor := defaultBg
      let fgColor := if sel then Attribute.ColorGreenBold else defaultFg
      let marker :=
        if (i : Int) = s.cursorIdx then [Cell.mk x y cursorGlyph defaultFg defaultBg] else []
      match printText width (x + 2) y option fgColor bgColor with
      | .error p => .error p
      | .ok (cells, y1) =>
        match printOptionsLoop s width x (i + 1) rest y1 with
        | .error p => .error p
        | .ok (more, newY) => .ok (marker ++ cells ++ more, newY)

def printOptions (s : SelectionUI) (width x originY : Int) : Except Panic (List Cell × Int) :=
  printOptionsLoop s width x 0 s.Options originY

/-- `printAll`: the cells of one full redraw. -/
def printAll (s : SelectionUI) (width : Int) : Except Panic (List Cell) :=
  match printHeader s width 2 1 with
  | .error p => .error p
  | .ok (c1, y1) =>
    match printOptions s width 2 (y1 + 1) with
    | .error p => .error p
    | .ok (c2, y2) =>
      match printFooter width 2 (y2 + 1) with
      | .error p => .error p
      | .ok (c3, y3) =>
        if s.errorMessage ≠ "" then
          match printError width 2 (y3 + 1) s.errorMessage with
          | .error p => .error p
          | .ok (c4, _) => .ok (c1 ++ c2 ++ c3 ++ c4)
        else .ok (c1 ++ c2 ++ c3)

/-! ## The main loop -/

/-- How one pass through the `switch` of `Run` ends. -/
inductive Flow where
  | next (s : SelectionUI)
  | breakMainloop (s : SelectionUI)
  | returnErr (err : Option String) (s : SelectionUI)
  | panicked (p : Panic) (s : SelectionUI)
  deriving DecidableEq, Repr

/-- The `switch ev.Type` statement of `Run` (everything in the loop body before
the redraw). -/
def handleEvent (s : SelectionUI) (ev : Event) : Flow :=
  match ev.typ with
  | .EventKey =>
    let s := { s with errorMessage := "" }
    if ev.Ch.toNat = 0 then
      if ev.Key = KeyEsc ∨ ev.Key = KeyCtrlC then .breakMainloop s
      else if ev.Key = KeyEnter then
        if isAnyTrue s.Selections then .breakMainloop s
        else .next { s with errorMessage := "Make a selection before continuing!" }
      else if ev.Key = KeyArrowUp ∨ ev.Key = KeyCtrlP then .next (moveCursorUp s)
      else if ev.Key = KeyArrowDown ∨ ev.Key = KeyCtrlN then .next (moveCursorDown s)
      else if ev.Key = KeySpace then
        match toggleSelectedUnderCursor s with
        | .ok s1 => .next s1
        | .error p => .panicked p s
      else .next s
    else
      if ev.Ch = 'k' then .next (moveCursorUp s)
      else if ev.Ch = 'j' then .next (moveCursorDown s)
      else if ev.Ch = 'q' then .breakMainloop s
      else .next s
  | .EventError => .returnErr ev.Err s
  | _ => .next s

/-- How a call ends: it returns a value, it panics, or it is still waiting in
`termbox.PollEvent()` because the environment has no further event. -/
inductive Result (α : Type) where
  | returned (a : α)
  | panicked (p : Panic)
  | blocked
  deriving DecidableEq, Repr

/-- The end of a call of `Run`: its result, the widget state it leaves behind
and the termbox state. -/
structure RunEnd where
  result : Result (Option String)
  ui : SelectionUI
  term : Term
  deriving DecidableEq, Repr

/-- `s.init()`: the environment decides whether `termbox.Init()` fails. -/
def init (initErr : Option String) (t : Term) : Option String × Term :=
  match initErr with
  | some e => (some e, t)
  | none => (none, { t with inits := t.inits + 1 })

/-- `s.deinit()`: `termbox.Close()`. -/
def deinit (t : Term) : Term :=
  { t with closes := t.closes + 1 }

/-- The labelled loop of `Run` together with the two statements after it. -/
def mainloop (s : SelectionUI) (t : Term) : List Poll → RunEnd
  | [] => ⟨.blocked, s, t⟩
  | p :: rest =>
    match handleEvent s p.ev with
    | .next s1 =>
      match printAll s1 p.width with
      | .error e => ⟨.panicked e, s1, t⟩
      | .ok _ => mainloop s1 t rest
    | .breakMainloop s1 => ⟨.returned none, s1, deinit t⟩
    | .returnErr err s1 => ⟨.returned err, s1, t⟩
    | .panicked e s1 => ⟨.panicked e, s1, t⟩

/-- `Run`. `initErr` is the result of `termbox.Init()`, `width0` the terminal
width during the first redraw, `polls` what the environment delivers. -/
def Run (s : SelectionUI) (initErr : Option String) (width0 : Int) (polls : List Poll)
    (t : Term) : RunEnd :=
  match init initErr t with
  | (some e, t1) => ⟨.returned (some e), s, t1⟩
  | (none, t1) =>
    match printAll s width0 with
    | .error e => ⟨.panicked e, s, t1⟩
    | .ok _ => mainloop s t1 polls

/-- `Prompt`: the selection flags when `Run` returns `nil`, a panic when it
returns an error. -/
def Prompt (options : List String) (itemDesc : String) (initErr : Option String)
    (width0 : Int) (polls : List Poll) (t : Term) : Result (List Bool) :=
  let e := Run (NewSelectionUI options itemDesc) initErr width0 polls t
  match e.result with
  | .returned none => .returned e.ui.Selections
  | .returned (some err) => .panicked (.err err)
  | .panicked p => .panicked p
  | .blocked => .blocked

/-! ## Vocabulary of the specification -/

/-- A key event with key code `k` and no character. -/
def keyEvent (k : Key) : Event := ⟨.EventKey, k, Char.ofNat 0, none⟩

/-- A key event carrying the printable character `c`. -/
def chEvent (c : Char) : Event := ⟨.EventKey, 0, c, none⟩

/-- A backend error event. -/
def errorEvent (e : String) : Event := ⟨.EventError, 0, Char.ofNat 0, some e⟩

/-- Logical event Confirm: Enter. -/
def isConfirm (ev : Event) : Bool :=
  ev.typ = .EventKey && ev.Ch.toNat = 0 && ev.Key = KeyEnter

/-- Logical event Toggle: Space. -/
def isToggle (ev : Event) : Bool :=
  ev.typ = .EventKey && ev.Ch.toNat = 0 && ev.Key = KeySpace

/-- Logical event Cursor-Up: Arrow-Up, Ctrl-P or the letter k. -/
def isCursorUp (ev : Event) : Bool :=
  ev.typ = .EventKey &&
    ((ev.Ch.toNat = 0 && (ev.Key = KeyArrowUp || ev.Key = KeyCtrlP)) || ev.Ch = 'k')

/-- Logical event Cursor-Down: Arrow-Down, Ctrl-N or the letter j. -/
def isCursorDown (ev : Event) : Bool :=
  ev.typ = .EventKey &&
    ((ev.Ch.toNat = 0 && (ev.Key = KeyArrowDown || ev.Key = KeyCtrlN)) || ev.Ch = 'j')

/-- The termbox state before the session: nothing acquired, nothing released. -/
def freshTerm : Term := ⟨0, 0⟩

/-- The widget state a pass through the switch leaves behind. -/
def Flow.state : Flow → SelectionUI
  | .next s => s
  | .breakMainloop s => s
  | .returnErr _ s => s
  | .panicked _ s => s

/-- The state machine alone: the switch of `Run` applied to a list of events
for as long as the loop goes on, without the redraws. -/
def feed (s : SelectionUI) : List Event → Flow
  | [] => .next s
  | ev :: rest =>
    match handleEvent s ev with
    | .next s1 => feed s1 rest
    | f => f

/-- The cursor indexes an option. -/
def CursorOk (s : SelectionUI) : Prop :=
  0 ≤ s.cursorIdx ∧ s.cursorIdx < (s.Options.length : Int)

/-- The body of the loop of `printText` for one pair `(i, r)` of the range:
the cell it sets. -/
def cellAt (originX originY wrapWidth : Int) (fg bg : Attribute) (p : Nat × Char) : Cell :=
  let y := originY + Int.tdiv (p.1 : Int) wrapWidth
  let x := originX + Int.tmod (p.1 : Int) wrapWidth
  Cell.mk (if y > originY then x + 2 else x) y p.2 fg bg

/-- The value of `y` after the loop of `printText`: the row of the last pair
of the range, the initial value when the range is empty. -/
def lastRow (originY wrapWidth : Int) : List (Nat × Char) → Int → Int
  | [], y => y
  | (i, _) :: rest, _ => lastRow originY wrapWidth rest (originY + Int.tdiv (i : Int) wrapWidth)

/-- The number of rows that receive at least one cell. -/
def rowsUsed (cells : List Cell) : Nat :=
  ((cells.map Cell.y).dedup).length

/-- The text consists of one-byte (ASCII) runes only. -/
def isAscii (text : String) : Prop :=
  ∀ c ∈ text.data, c.toNat < 0x80

/-- Logical events Abort and Quit-Letter: Esc, Ctrl-C or the letter q. -/
def isAbort (ev : Event) : Bool :=
  ev.typ = .EventKey &&
    ((ev.Ch.toNat = 0 && (ev.Key = KeyEsc || ev.Key = KeyCtrlC)) || ev.Ch = 'q')

/-- A key event no case of the two inner switches of `Run` matches: with no
character, a key other than Esc, Ctrl-C, Enter, Arrow-Up, Ctrl-P, Arrow-Down,
Ctrl-N, Space; with a character, one other than k, j, q. -/
def isUnrecognized (ev : Event) : Bool :=
  ev.typ = .EventKey &&
    !(ev.Ch.toNat = 0 &&
      (ev.Key = KeyEsc || ev.Key = KeyCtrlC || ev.Key = KeyEnter || ev.Key = KeyArrowUp ||
        ev.Key = KeyCtrlP || ev.Key = KeyArrowDown || ev.Key = KeyCtrlN || ev.Key = KeySpace)) &&
    !(ev.Ch = 'k' || ev.Ch = 'j' || ev.Ch = 'q')

/-- The state of a session without options: no option, no flag, cursor 0. -/
def EmptyState (s : SelectionUI) : Prop :=
  s.Options = [] ∧ s.Selections = [] ∧ s.cursorIdx = 0

/-- What `printOptions` does for one option: the row at which the option is
drawn, the row `printText` returns for it, the cursor marker set in front of it
(at most one cell) and the cells of its text. -/
structure OptionBlock where
  start : Int
  next : Int
  marker : List Cell
  cells : List Cell
  deriving DecidableEq, Repr

/-- The loop of `printOptions`, keeping apart what each iteration does:
the same tests and calls as `printOptionsLoop`, with one block per option
instead of the concatenated cells. -/
def optionBlocks (s : SelectionUI) (width x : Int) :
    Nat → List String → Int → Except Panic (List OptionBlock)
  | _, [], _ => .ok []
  | i, option :: rest, y =>
    match s.Selections.get? i with
    | none => .error .indexOutOfRange
    | some sel =>
      let bgColor := defaultBg
      let fgColor := if sel then Attribute.ColorGreenBold else defaultFg
      let marker :=
        if (i : Int) = s.cursorIdx then [Cell.mk x y cursorGlyph defaultFg defaultBg] else []
      match printText width (x + 2) y option fgColor bgColor with
      | .error p => .error p
      | .ok (cells, y1) =>
        match optionBlocks s width x (i + 1) rest y1 with
        | .error p => .error p
        | .ok more => .ok (⟨y, y1, marker, cells⟩ :: more)

/-- All cells of a list of blocks, in drawing order. -/
def blocksCells : List OptionBlock → List Cell
  | [] => []
  | b :: rest => b.marker ++ b.cells ++ blocksCells rest

/-- The row after a list of blocks drawn from row `y` on. -/
def blocksNext (y : Int) : List OptionBlock → Int
  | [] => y
  | b :: rest => blocksNext b.next rest


/-! ## The state machine: frame and invariant lemmas -/

theorem moveCursorUp_frame (s : SelectionUI) :
    (moveCursorUp s).Options = s.Options ∧ (moveCursorUp s).Selections = s.Selections ∧
    (moveCursorUp s).ItemDescription = s.ItemDescription ∧
    (moveCursorUp s).errorMessage = s.errorMessage := by
  unfold moveCursorUp setCursor
  split <;> simp

theorem moveCursorDown_frame (s : SelectionUI) :
    (moveCursorDown s).Options = s.Options ∧ (moveCursorDown s).Selections = s.Selections ∧
    (moveCursorDown s).ItemDescription = s.ItemDescription ∧
    (moveCursorDown s).errorMessage = s.errorMessage := by
  unfold moveCursorDown setCursor
  split <;> simp

theorem moveCursorUp_ok (s : SelectionUI) (h : CursorOk s) : CursorOk (moveCursorUp s) := by
  unfold CursorOk moveCursorUp setCursor at *
  split <;> (try simp only []) <;> omega

theorem moveCursorDown_ok (s : SelectionUI) (h : CursorOk s) : CursorOk (moveCursorDown s) := by
  unfold CursorOk moveCursorDown setCursor at *
  split <;> (try simp only []) <;> omega

theorem toggleSelected_frame (s s1 : SelectionUI) (row : Int)
    (h : toggleSelected s row = .ok s1) :
    s1.Options = s.Options ∧ s1.cursorIdx = s.cursorIdx ∧
    s1.Selections.length = s.Selections.length ∧ s1.errorMessage = s.errorMessage := by
  unfold toggleSelected at h
  split at h
  · split at h
    · cases h; simp
    · cases h
  · cases h

theorem moveCursorUp_inv (s : SelectionUI) (m : String) :
    (moveCursorUp { s with errorMessage := m }).Options = s.Options ∧
    (moveCursorUp { s with errorMessage := m }).Selections.length = s.Selections.length ∧
    (CursorOk s → CursorOk (moveCursorUp { s with errorMessage := m })) := by
  refine ⟨(moveCursorUp_frame _).1, ?_, fun h => moveCursorUp_ok _ h⟩
  rw [(moveCursorUp_frame _).2.1]

theorem moveCursorDown_inv (s : SelectionUI) (m : String) :
    (moveCursorDown { s with errorMessage := m }).Options = s.Options ∧
    (moveCursorDown { s with errorMessage := m }).Selections.length = s.Selections.length ∧
    (CursorOk s → CursorOk (moveCursorDown { s with errorMessage := m })) := by
  refine ⟨(moveCursorDown_frame _).1, ?_, fun h => moveCursorDown_ok _ h⟩
  rw [(moveCursorDown_frame _).2.1]

/-- The state after the switch has the same options and as many flags, and
its cursor is in range when it was before. -/
theorem handleEvent_inv (s : SelectionUI) (ev : Event) :
    (handleEvent s ev).state.Options = s.Options ∧
    (handleEvent s ev).state.Selections.length = s.Selections.length ∧
    (CursorOk s → CursorOk (handleEvent s ev).state) := by
  have hclr : ∀ m : String, CursorOk s → CursorOk { s with errorMessage := m } := fun _ h => h
  unfold handleEvent
  split
  · simp only []
    split_ifs
    any_goals
      (first
        | exact ⟨rfl, rfl, hclr _⟩
        | exact moveCursorUp_inv s ""
        | exact moveCursorDown_inv s "")
    cases hts : toggleSelectedUnderCursor { s with errorMessage := "" } with
    | error p => exact ⟨rfl, rfl, hclr _⟩
    | ok s1 =>
      obtain ⟨h1, h2, h3, -⟩ := toggleSelected_frame _ _ _ hts
      refine ⟨h1, h3, fun h => ?_⟩
      simp only [Flow.state, CursorOk, h1, h2]
      exact h
  · exact ⟨rfl, rfl, id⟩
  · exact ⟨rfl, rfl, id⟩

/-! ## The switch, one logical event at a time -/

theorem isAnyTrue_iff (l : List Bool) : isAnyTrue l = true ↔ true ∈ l := by
  induction l with
  | nil => simp [isAnyTrue]
  | cons b rest ih =>
    cases b <;> simp [isAnyTrue, ih]

theorem handleEvent_confirm (s : SelectionUI) (ev : Event) (hev : isConfirm ev = true) :
    handleEvent s ev =
      if isAnyTrue s.Selections then .breakMainloop { s with errorMessage := "" }
      else .next { s with errorMessage := "Make a selection before continuing!" } := by
  simp only [isConfirm, Bool.and_eq_true, decide_eq_true_eq] at hev
  obtain ⟨⟨h1, h2⟩, h3⟩ := hev
  simp [handleEvent, h1, h2, h3, KeyEnter, KeyEsc, KeyCtrlC]

theorem handleEvent_toggle (s : SelectionUI) (ev : Event) (hev : isToggle ev = true) :
    handleEvent s ev =
      match toggleSelectedUnderCursor { s with errorMessage := "" } with
      | .ok s1 => .next s1
      | .error p => .panicked p { s with errorMessage := "" } := by
  simp only [isToggle, Bool.and_eq_true, decide_eq_true_eq] at hev
  obtain ⟨⟨h1, h2⟩, h3⟩ := hev
  simp [handleEvent, h1, h2, h3, KeySpace, KeyEnter, KeyEsc, KeyCtrlC, KeyArrowUp, KeyArrowDown,
    KeyCtrlP, KeyCtrlN]

theorem handleEvent_cursorUp (s : SelectionUI) (ev : Event) (hev : isCursorUp ev = true) :
    handleEvent s ev = .next (moveCursorUp { s with errorMessage := "" }) := by
  simp only [isCursorUp, Bool.and_eq_true, Bool.or_eq_true, decide_eq_true_eq] at hev
  obtain ⟨h1, h2⟩ := hev
  rcases h2 with ⟨h2, h3 | h3⟩ | h2
  · simp [handleEvent, h1, h2, h3, KeyEnter, KeyEsc, KeyCtrlC, KeyArrowUp]
  · simp [handleEvent, h1, h2, h3, KeyEnter, KeyEsc, KeyCtrlC, KeyCtrlP]
  · have : ev.Ch.toNat ≠ 0 := by rw [h2]; decide
    simp [handleEvent, h1, h2, this]

theorem handleEvent_cursorDown (s : SelectionUI) (ev : Event) (hev : isCursorDown ev = true) :
    handleEvent s ev = .next (moveCursorDown { s with errorMessage := "" }) := by
  simp only [isCursorDown, Bool.and_eq_true, Bool.or_eq_true, decide_eq_true_eq] at hev
  obtain ⟨h1, h2⟩ := hev
  rcases h2 with ⟨h2, h3 | h3⟩ | h2
  · simp [handleEvent, h1, h2, h3, KeyEnter, KeyEsc, KeyCtrlC, KeyArrowUp, KeyArrowDown, KeyCtrlP]
  · simp [handleEvent, h1, h2, h3, KeyEnter, KeyEsc, KeyCtrlC, KeyArrowUp, KeyCtrlP, KeyCtrlN]
  · have : ev.Ch.toNat ≠ 0 := by rw [h2]; decide
    simp [handleEvent, h1, h2, this]

/-! ## Text layout: what the loop computes -/

/-- With a non-zero wrap width the loop of `printText` completes: it sets one
cell per pair of the range, in order. -/
theorem printTextLoop_eq (originX originY wrapWidth : Int) (fg bg : Attribute)
    (hW : wrapWidth ≠ 0) (l : List (Nat × Char)) :
    ∀ y, printTextLoop originX originY wrapWidth fg bg l y =
      .ok (l.map (cellAt originX originY wrapWidth fg bg), lastRow originY wrapWidth l y) := by
  induction l with
  | nil => intro y; rfl
  | cons p rest ih =>
    intro y
    obtain ⟨i, r⟩ := p
    simp only [printTextLoop, if_neg hW, ih, List.map_cons, lastRow, cellAt]

/-- With a non-zero wrap width `printText` completes. -/
theorem printText_eq (width originX originY : Int) (text : String) (fg bg : Attribute)
    (hW : width - originX - 3 ≠ 0) :
    printText width originX originY text fg bg =
      .ok ((rangeString text).map (cellAt originX originY (width - originX - 3) fg bg),
        lastRow originY (width - originX - 3) (rangeString text) originY + 1) := by
  simp only [printText, printTextLoop_eq _ _ _ _ _ hW]

/-- On ASCII text the byte offsets of the range are the character positions. -/
theorem rangeFrom_ascii (cs : List Char) (h : ∀ c ∈ cs, c.toNat < 0x80) :
    ∀ i, rangeFrom i cs = cs.enumFrom i := by
  induction cs with
  | nil => intro i; rfl
  | cons c rest ih =>
    intro i
    have hc : runeLen c = 1 := by
      have := h c (List.mem_cons_self _ _)
      simp [runeLen, this]
    simp only [rangeFrom, List.enumFrom, hc]
    rw [ih (fun c hc => h c (List.mem_cons_of_mem _ hc))]

/-- On ASCII text and with a non-zero wrap width, the character with index `k`
in the text is laid out by the loop body at position `k`. -/
theorem printText_ascii (width originX originY : Int) (text : String) (fg bg : Attribute)
    (hW : width - originX - 3 ≠ 0) (ha : isAscii text) :
    ∃ ny, printText width originX originY text fg bg =
      .ok (text.data.enum.map (cellAt originX originY (width - originX - 3) fg bg), ny) := by
  refine ⟨lastRow originY (width - originX - 3) (rangeString text) originY + 1, ?_⟩
  rw [printText_eq width originX originY text fg bg hW, rangeString, rangeFrom_ascii _ ha 0]
  rfl

theorem image_div_range (L w : Nat) (hw : 1 ≤ w) :
    (Finset.range L).image (fun k => k / w) = Finset.range ((L + w - 1) / w) := by
  ext q
  simp only [Finset.mem_image, Finset.mem_range]
  constructor
  · rintro ⟨k, hk, rfl⟩
    rw [Nat.lt_iff_add_one_le, Nat.le_div_iff_mul_le (by omega)]
    have := Nat.div_mul_le_self k w
    calc (k / w + 1) * w = k / w * w + w := by ring
      _ ≤ L + w - 1 := by omega
  · intro hq
    rw [Nat.lt_iff_add_one_le, Nat.le_div_iff_mul_le (by omega)] at hq
    have h1 : (q + 1) * w = q * w + w := by ring
    refine ⟨q * w, by omega, ?_⟩
    exact Nat.mul_div_cancel q (by omega)

/-- On ASCII text of `L` characters and with wrap width `W >= 1`, the cells set
by `printText` lie on exactly ceil(L / W) rows. -/
theorem rowsUsed_ascii (width originX originY : Int) (text : String) (fg bg : Attribute)
    (w : Nat) (hw : 1 ≤ w) (hW : width - originX - 3 = (w : Int)) (ha : isAscii text) :
    ∃ cells ny, printText width originX originY text fg bg = .ok (cells, ny) ∧
      rowsUsed cells = (text.length + w - 1) / w := by
  have hW0 : width - originX - 3 ≠ 0 := by omega
  obtain ⟨ny, h⟩ := printText_ascii width originX originY text fg bg hW0 ha
  refine ⟨_, ny, h, ?_⟩
  have hmap : (text.data.enum.map (cellAt originX originY (width - originX - 3) fg bg)).map Cell.y
      = (List.range text.data.length).map (fun k => originY + ((k / w : Nat) : Int)) := by
    rw [List.map_map, hW]
    apply List.ext_get
    · simp [List.enum]
    · intro n h1 h2
      simp [List.enum, cellAt, Int.tdiv_eq_ediv]
  unfold rowsUsed
  rw [hmap, ← List.card_toFinset]
  have hinj : Function.Injective (fun q : Nat => originY + (q : Int)) := by
    intro a b hab
    simp only at hab
    omega
  have himg : ((List.range text.data.length).map
        (fun k => originY + ((k / w : Nat) : Int))).toFinset
      = ((Finset.range text.data.length).image (fun k => k / w)).image
          (fun q : Nat => originY + (q : Int)) := by
    ext x
    simp only [List.mem_toFinset, List.mem_map, List.mem_range, Finset.mem_image,
      Finset.mem_range]
    constructor
    · rintro ⟨k, hk, rfl⟩
      exact ⟨k / w, ⟨k, hk, rfl⟩, rfl⟩
    · rintro ⟨q, ⟨k, hk, rfl⟩, rfl⟩
      exact ⟨k, hk, rfl⟩
  rw [himg, Finset.card_image_of_injective _ hinj, image_div_range _ _ hw, Finset.card_range]
  rfl

/-! ## Claims -/

/-- C1 (confirm gate). Handling a Confirm event (Enter) leaves the main loop,
and `Run` then returns nil after releasing the display, exactly when some
selection flag is true. When no flag is true the loop goes on: options,
selection flags and cursor are unchanged and the error message is the fixed,
non-empty notice. For options apple, banana the events Confirm, Toggle, Confirm
first leave the session active with the notice, and end with `Prompt`
returning the flags true, false. -/
theorem confirm_gate (s : SelectionUI) (ev : Event) (hev : isConfirm ev = true) :
    ((∃ s1, handleEvent s ev = .breakMainloop s1) ↔ true ∈ s.Selections) ∧
    (true ∈ s.Selections → ∀ (t : Term) (w : Int) (rest : List Poll),
      handleEvent s ev = .breakMainloop { s with errorMessage := "" } ∧
      mainloop s t (⟨ev, w⟩ :: rest) = ⟨.returned none, { s with errorMessage := "" }, deinit t⟩) ∧
    (true ∉ s.Selections →
      handleEvent s ev = .next { s with errorMessage := "Make a selection before continuing!" } ∧
      "Make a selection before continuing!" ≠ "") ∧
    feed (NewSelectionUI ["apple", "banana"] "fruit") [keyEvent KeyEnter] =
      .next ⟨["apple", "banana"], "fruit", [false, false], 0,
        "Make a selection before continuing!"⟩ ∧
    feed (NewSelectionUI ["apple", "banana"] "fruit") [keyEvent KeyEnter, keyEvent KeySpace] =
      .next ⟨["apple", "banana"], "fruit", [true, false], 0, ""⟩ ∧
    feed (NewSelectionUI ["apple", "banana"] "fruit")
        [keyEvent KeyEnter, keyEvent KeySpace, keyEvent KeyEnter] =
      .breakMainloop ⟨["apple", "banana"], "fruit", [true, false], 0, ""⟩ ∧
    Prompt ["apple", "banana"] "fruit" none 80
        [⟨keyEvent KeyEnter, 80⟩, ⟨keyEvent KeySpace, 80⟩, ⟨keyEvent KeyEnter, 80⟩] freshTerm =
      .returned [true, false] := by
  have hc := handleEvent_confirm s ev hev
  refine ⟨?_, ?_, ?_, rfl, rfl, rfl, rfl⟩
  · rw [hc, ← isAnyTrue_iff]
    cases isAnyTrue s.Selections <;> simp
  · intro h t w rest
    have h1 : isAnyTrue s.Selections = true := (isAnyTrue_iff _).2 h
    rw [h1] at hc
    simp only [if_true] at hc
    refine ⟨hc, ?_⟩
    simp only [mainloop, hc]
  · intro h
    have h1 : isAnyTrue s.Selections = false := by
      cases hb : isAnyTrue s.Selections
      · rfl
      · exact absurd ((isAnyTrue_iff _).1 hb) h
    rw [h1] at hc
    exact ⟨by simpa using hc, by decide⟩

theorem confirm_gate_witness :
    isConfirm (keyEvent KeyEnter) = true ∧
    ((∃ s1, handleEvent ⟨["a", "b"], "x", [false, true], 1, "old"⟩ (keyEvent KeyEnter) =
        .breakMainloop s1) ↔ true ∈ [false, true]) :=
  ⟨by decide, (confirm_gate ⟨["a", "b"], "x", [false, true], 1, "old"⟩ (keyEvent KeyEnter)
    (by decide)).1⟩

theorem NewSelectionUI_cursorOk (options : List String) (itemDesc : String)
    (hN : 1 ≤ options.length) : CursorOk (NewSelectionUI options itemDesc) := by
  simp only [CursorOk, NewSelectionUI]
  omega

/-- While only Cursor-Up and Cursor-Down events arrive the state machine keeps
going, the options stay the same and the cursor stays in range. -/
theorem feed_cursor_moves (evs : List Event) :
    ∀ s : SelectionUI, CursorOk s →
      (∀ ev ∈ evs, isCursorUp ev = true ∨ isCursorDown ev = true) →
      ∃ s1, feed s evs = .next s1 ∧ s1.Options = s.Options ∧ CursorOk s1 := by
  induction evs with
  | nil => intro s hs _; exact ⟨s, rfl, rfl, hs⟩
  | cons ev rest ih =>
    intro s hs hev
    have hrest : ∀ e ∈ rest, isCursorUp e = true ∨ isCursorDown e = true :=
      fun e he => hev e (List.mem_cons_of_mem _ he)
    have hinv := handleEvent_inv s ev
    rcases hev ev (List.mem_cons_self _ _) with h | h
    · have heq := handleEvent_cursorUp s ev h
      rw [heq] at hinv
      obtain ⟨s1, h1, h2, h3⟩ := ih _ (hinv.2.2 hs) hrest
      refine ⟨s1, ?_, h2.trans hinv.1, h3⟩
      simp only [feed, heq]
      exact h1
    · have heq := handleEvent_cursorDown s ev h
      rw [heq] at hinv
      obtain ⟨s1, h1, h2, h3⟩ := ih _ (hinv.2.2 hs) hrest
      refine ⟨s1, ?_, h2.trans hinv.1, h3⟩
      simp only [feed, heq]
      exact h1

/-- Whatever the environment delivers, the main loop leaves the options as
they were and the cursor in range when it was in range before. -/
theorem mainloop_inv (polls : List Poll) :
    ∀ (s : SelectionUI) (t : Term),
      (mainloop s t polls).ui.Options = s.Options ∧
      (CursorOk s → CursorOk (mainloop s t polls).ui) := by
  induction polls with
  | nil => intro s t; exact ⟨rfl, id⟩
  | cons p rest ih =>
    intro s t
    have hinv := handleEvent_inv s p.ev
    unfold mainloop
    cases hf : handleEvent s p.ev with
    | next s1 =>
      rw [hf] at hinv
      simp only []
      cases hp : printAll s1 p.width with
      | error e => exact ⟨hinv.1, hinv.2.2⟩
      | ok cells =>
        simp only []
        exact ⟨(ih s1 t).1.trans hinv.1, fun h => (ih s1 t).2 (hinv.2.2 h)⟩
    | breakMainloop s1 => rw [hf] at hinv; exact ⟨hinv.1, hinv.2.2⟩
    | returnErr err s1 => rw [hf] at hinv; exact ⟨hinv.1, hinv.2.2⟩
    | panicked e s1 => rw [hf] at hinv; exact ⟨hinv.1, hinv.2.2⟩

theorem Run_inv (s : SelectionUI) (initErr : Option String) (width0 : Int)
    (polls : List Poll) (t : Term) :
    (Run s initErr width0 polls t).ui.Options = s.Options ∧
    (CursorOk s → CursorOk (Run s initErr width0 polls t).ui) := by
  unfold Run
  cases initErr with
  | some e => exact ⟨rfl, id⟩
  | none =>
    simp only [init]
    cases hp : printAll s width0 with
    | error e => exact ⟨rfl, id⟩
    | ok cells => exact mainloop_inv polls s _

/-- C2 (cursor invariant). For an option list of length N >= 1, starting from
the state built by `NewSelectionUI`, any finite sequence of Cursor-Up and
Cursor-Down events is accepted by the state machine (the session goes on) and
leaves a cursor with 0 <= cursor < N; the same bounds hold for the state `Run`
leaves behind, whatever the terminal width and the termbox state. -/
theorem cursor_invariant (options : List String) (itemDesc : String)
    (hN : 1 ≤ options.length) (evs : List Event)
    (hev : ∀ ev ∈ evs, isCursorUp ev = true ∨ isCursorDown ev = true) :
    (NewSelectionUI options itemDesc).cursorIdx = 0 ∧
    (∃ s1, feed (NewSelectionUI options itemDesc) evs = .next s1 ∧
      0 ≤ s1.cursorIdx ∧ s1.cursorIdx < (options.length : Int)) ∧
    (∀ (initErr : Option String) (width0 : Int) (widths : List Int) (t : Term),
      widths.length = evs.length →
      0 ≤ (Run (NewSelectionUI options itemDesc) initErr width0
            (List.zipWith Poll.mk evs widths) t).ui.cursorIdx ∧
      (Run (NewSelectionUI options itemDesc) initErr width0
            (List.zipWith Poll.mk evs widths) t).ui.cursorIdx < (options.length : Int)) := by
  have h0 := NewSelectionUI_cursorOk options itemDesc hN
  refine ⟨rfl, ?_, ?_⟩
  · obtain ⟨s1, h1, h2, h3⟩ := feed_cursor_moves evs _ h0 hev
    refine ⟨s1, h1, h3.1, ?_⟩
    have := h3.2
    rw [h2] at this
    exact this
  · intro initErr width0 widths t _
    have hr := Run_inv (NewSelectionUI options itemDesc) initErr width0
      (List.zipWith Poll.mk evs widths) t
    have hc := hr.2 h0
    refine ⟨hc.1, ?_⟩
    have := hc.2
    rw [hr.1] at this
    exact this

theorem cursor_invariant_witness :
    ∃ s1, feed (NewSelectionUI ["a", "b"] "x")
        [keyEvent KeyArrowDown, chEvent 'j', keyEvent KeyCtrlP, chEvent 'k', keyEvent KeyCtrlN] =
          .next s1 ∧
      0 ≤ s1.cursorIdx ∧ s1.cursorIdx < ((["a", "b"] : List String).length : Int) :=
  (cursor_invariant ["a", "b"] "x" (by decide)
    [keyEvent KeyArrowDown, chEvent 'j', keyEvent KeyCtrlP, chEvent 'k', keyEvent KeyCtrlN]
    (by decide)).2.1

/-- C3 (toggle on an empty option list). With no options the selection slice
is empty and the cursor is 0, so the Toggle event indexes `Selections[0]`
outside the slice: the switch ends in an index-out-of-range panic instead of
doing nothing, and `Prompt` does not return. The cursor moves and Confirm on
the same state do complete. -/
theorem toggle_on_empty_options_panics (itemDesc : String) :
    (NewSelectionUI [] itemDesc).Selections = [] ∧
    (NewSelectionUI [] itemDesc).cursorIdx = 0 ∧
    toggleSelectedUnderCursor (NewSelectionUI [] itemDesc) = .error .indexOutOfRange ∧
    handleEvent (NewSelectionUI [] itemDesc) (keyEvent KeySpace) =
      .panicked .indexOutOfRange (NewSelectionUI [] itemDesc) ∧
    Prompt [] "fruit" none 80 [⟨keyEvent KeySpace, 80⟩] freshTerm =
      .panicked .indexOutOfRange ∧
    handleEvent (NewSelectionUI [] itemDesc) (keyEvent KeyArrowUp) =
      .next (NewSelectionUI [] itemDesc) ∧
    handleEvent (NewSelectionUI [] itemDesc) (keyEvent KeyArrowDown) =
      .next (NewSelectionUI [] itemDesc) := by
  refine ⟨rfl, rfl, rfl, rfl, rfl, rfl, rfl⟩

theorem toggleSelected_ok (s : SelectionUI) (row : Int) (h0 : 0 ≤ row)
    (h1 : row < (s.Selections.length : Int)) :
    ∃ b, s.Selections.get? row.toNat = some b ∧
      toggleSelected s row = .ok { s with Selections := s.Selections.set row.toNat (!b) } := by
  have hlt : row.toNat < s.Selections.length := by omega
  refine ⟨s.Selections.get ⟨row.toNat, hlt⟩, List.get?_eq_get hlt, ?_⟩
  unfold toggleSelected
  rw [if_pos ⟨h0, h1⟩, List.get?_eq_get hlt]

theorem set_set_not (l : List Bool) (n : Nat) (b : Bool) (h : l.get? n = some b) :
    (l.set n (!b)).set n (!(!b)) = l := by
  rw [List.set_set, Bool.not_not]
  apply List.ext_get?
  intro m
  by_cases hm : n = m
  · subst hm
    have hlt : n < l.length := by
      rcases Nat.lt_or_ge n l.length with h1 | h1
      · exact h1
      · rw [List.get?_eq_none.2 h1] at h; cases h
    rw [h]
    simp [List.getElem?_set, hlt]
  · simp [List.getElem?_set, hm]

/-- C4 (layout placement formula). The position `i` that `printText` divides by
the wrap width is the byte offset of the rune in the string, not its character
index. For the text "éa" (characters 'é', 'a'; 'é' takes two bytes), origin
(0, 0) and wrap width 3, the character 'a' has character index 1 but is set at
column 2, while the formula of the claim puts it at column 1. On the ASCII text
"abcdefgh" offsets and indices agree and the cells are "abc" on row 0 at
columns 0..2, "def" on row 1 at columns 2..4, "gh" on row 2 at columns 2..3. -/
theorem layout_position_is_byte_offset :
    "éa".data = ['é', 'a'] ∧
    rangeString "éa" = [(0, 'é'), (2, 'a')] ∧
    printText 6 0 0 "éa" defaultFg defaultBg =
      .ok ([⟨0, 0, 'é', defaultFg, defaultBg⟩, ⟨2, 0, 'a', defaultFg, defaultBg⟩], 1) ∧
    cellAt 0 0 3 defaultFg defaultBg (1, 'a') = ⟨1, 0, 'a', defaultFg, defaultBg⟩ ∧
    printText 6 0 0 "abcdefgh" defaultFg defaultBg =
      .ok ([⟨0, 0, 'a', defaultFg, defaultBg⟩, ⟨1, 0, 'b', defaultFg, defaultBg⟩,
            ⟨2, 0, 'c', defaultFg, defaultBg⟩, ⟨2, 1, 'd', defaultFg, defaultBg⟩,
            ⟨3, 1, 'e', defaultFg, defaultBg⟩, ⟨4, 1, 'f', defaultFg, defaultBg⟩,
            ⟨2, 2, 'g', defaultFg, defaultBg⟩, ⟨3, 2, 'h', defaultFg, defaultBg⟩], 3) := by
  refine ⟨rfl, rfl, rfl, rfl, rfl⟩

/-- C5 (layout row count). The text "ééé" has 3 characters, so with wrap width 3
the claim gives ceil(3 / 3) = 1 row; `printText` divides the byte offsets
0, 2, 4 by 3 and sets cells on rows 0, 0, 1: two rows are used. On the ASCII
text "abcdefgh" the count is ceil(8 / 3) = 3. -/
theorem layout_row_count_byte_offset :
    "ééé".length = 3 ∧ (3 + 3 - 1) / 3 = 1 ∧
    printText 6 0 0 "ééé" defaultFg defaultBg =
      .ok ([⟨0, 0, 'é', defaultFg, defaultBg⟩, ⟨2, 0, 'é', defaultFg, defaultBg⟩,
            ⟨3, 1, 'é', defaultFg, defaultBg⟩], 2) ∧
    rowsUsed [⟨0, 0, 'é', defaultFg, defaultBg⟩, ⟨2, 0, 'é', defaultFg, defaultBg⟩,
            ⟨3, 1, 'é', defaultFg, defaultBg⟩] = 2 ∧
    (∃ cells ny, printText 6 0 0 "abcdefgh" defaultFg defaultBg = .ok (cells, ny) ∧
      rowsUsed cells = (8 + 3 - 1) / 3) := by
  refine ⟨by decide, by decide, rfl, by decide, ⟨_, _, rfl, by decide⟩⟩

/-- C6, as the claim states it, fails: with terminal width 3 and origin column
0 the wrap width is 0, and `printText` on "ab" does not complete, it stops
with a division by zero. -/
theorem zero_width_counterexample :
    ¬ ∃ cells ny, printText 3 0 0 "ab" defaultFg defaultBg = .ok (cells, ny) := by
  rintro ⟨cells, ny, h⟩
  have h2 : printText 3 0 0 "ab" defaultFg defaultBg = .error .divideByZero := rfl
  rw [h2] at h
  cases h

theorem rangeString_ne_nil (text : String) (h : text ≠ "") : rangeString text ≠ [] := by
  obtain ⟨cs⟩ := text
  cases cs with
  | nil => exact absurd rfl h
  | cons c rest => simp [rangeString, rangeFrom]

/-- C6 (amended). When the wrap width is 0 (terminal width = origin column + 3)
`printText` on a non-empty text does not complete: the first iteration divides
by zero and no cell is returned. -/
theorem zero_width_divides_by_zero (originX originY : Int) (text : String)
    (fg bg : Attribute) (h : text ≠ "") :
    printText (originX + 3) originX originY text fg bg = .error .divideByZero := by
  have hr := rangeString_ne_nil text h
  unfold printText
  cases hl : rangeString text with
  | nil => exact absurd hl hr
  | cons p rest =>
    obtain ⟨i, r⟩ := p
    simp [printTextLoop]

theorem zero_width_divides_by_zero_witness :
    "ab" ≠ "" ∧ printText (2 + 3) 2 1 "ab" defaultFg defaultBg = .error .divideByZero :=
  ⟨by decide, zero_width_divides_by_zero 2 1 "ab" defaultFg defaultBg (by decide)⟩

/-- Where the loop body puts a pair when the wrap width is positive: on or
below the origin row; on the origin row from the origin column on for at most
`wrapWidth` columns, on later rows two columns further right. -/
theorem cellAt_bounds (originX originY wrapWidth : Int) (fg bg : Attribute)
    (hW : 1 ≤ wrapWidth) (p : Nat × Char) :
    originY ≤ (cellAt originX originY wrapWidth fg bg p).y ∧
    ((cellAt originX originY wrapWidth fg bg p).y = originY →
      originX ≤ (cellAt originX originY wrapWidth fg bg p).x ∧
      (cellAt originX originY wrapWidth fg bg p).x < originX + wrapWidth) ∧
    (originY < (cellAt originX originY wrapWidth fg bg p).y →
      originX + 2 ≤ (cellAt originX originY wrapWidth fg bg p).x ∧
      (cellAt originX originY wrapWidth fg bg p).x < originX + wrapWidth + 2) := by
  have hi : (0 : Int) ≤ (p.1 : Int) := Int.ofNat_nonneg _
  have h1 : 0 ≤ Int.tdiv (p.1 : Int) wrapWidth := Int.tdiv_nonneg hi (by omega)
  have h2 : 0 ≤ Int.tmod (p.1 : Int) wrapWidth := Int.tmod_nonneg _ hi
  have h3 : Int.tmod (p.1 : Int) wrapWidth < wrapWidth := Int.tmod_lt_of_pos _ (by omega)
  simp only [cellAt]
  refine ⟨by omega, ?_, ?_⟩
  · intro h
    rw [if_neg (by omega)]
    omega
  · intro h
    rw [if_pos (by omega)]
    omega

/-- C7, as the claim states it, fails: with terminal width 6 and origin column
0 the wrap width is 3, and the last character of "abcdef" is set on the
continuation row at column 4, which is not less than 6 - 3. -/
theorem right_margin_counterexample :
    (1 : Int) ≤ 6 - 0 - 3 ∧
    ∃ cells ny c, printText 6 0 0 "abcdef" defaultFg defaultBg = .ok (cells, ny) ∧
      c ∈ cells ∧ c.ch = 'f' ∧ c.y = 1 ∧ c.x = 4 ∧ ¬ (c.x < 6 - 3) := by
  refine ⟨by decide,
    [⟨0, 0, 'a', defaultFg, defaultBg⟩, ⟨1, 0, 'b', defaultFg, defaultBg⟩,
     ⟨2, 0, 'c', defaultFg, defaultBg⟩, ⟨2, 1, 'd', defaultFg, defaultBg⟩,
     ⟨3, 1, 'e', defaultFg, defaultBg⟩, ⟨4, 1, 'f', defaultFg, defaultBg⟩], 2,
    ⟨4, 1, 'f', defaultFg, defaultBg⟩, rfl, by decide, rfl, rfl, rfl, by decide⟩

/-- C7 (amended). With wrap width terminalWidth - originColumn - 3 >= 1,
`printText` completes; every character it sets on the first row lies in a
column less than terminalWidth - 3, and every character it sets on a
continuation row lies in a column less than terminalWidth - 1: the rightmost
terminal column is never written, and no cell lies left of the origin column
or above the origin row. -/
theorem right_margin (width originX originY : Int) (text : String) (fg bg : Attribute)
    (hW : 1 ≤ width - originX - 3) :
    ∃ cells ny, printText width originX originY text fg bg = .ok (cells, ny) ∧
      ∀ c ∈ cells, originY ≤ c.y ∧ originX ≤ c.x ∧
        (c.y = originY → c.x < width - 3) ∧
        (originY < c.y → c.x < width - 1) := by
  refine ⟨_, _, printText_eq width originX originY text fg bg (by omega), ?_⟩
  intro c hc
  obtain ⟨p, -, rfl⟩ := List.mem_map.1 hc
  obtain ⟨h1, h2, h3⟩ := cellAt_bounds originX originY (width - originX - 3) fg bg hW p
  refine ⟨h1, ?_, fun h => by have := (h2 h).2; omega, fun h => by have := (h3 h).2; omega⟩
  rcases h1.lt_or_eq with h | h
  · have := (h3 h).1; omega
  · exact (h2 h.symm).1

theorem right_margin_witness :
    (1 : Int) ≤ 6 - 0 - 3 ∧
    ∃ cells ny, printText 6 0 0 "abcdef" defaultFg defaultBg = .ok (cells, ny) ∧
      ∀ c ∈ cells, (0 : Int) ≤ c.y ∧ 0 ≤ c.x ∧
        (c.y = 0 → c.x < 6 - 3) ∧
        (0 < c.y → c.x < 6 - 1) :=
  ⟨by decide, right_margin 6 0 0 "abcdef" defaultFg defaultBg (by decide)⟩

/-- C8 (display release). When a backend error event is polled, `Run` returns
the error at once: the statements after the loop are skipped and the display
acquired by `init` is not released (0 calls of `termbox.Close`), so `Prompt`
panics with the terminal still acquired. Leaving the loop by Confirm, by Abort
or by the letter q releases the display once. -/
theorem error_event_skips_release :
    (∀ (s : SelectionUI) (t : Term) (k : Key) (c : Char) (err : Option String) (w : Int)
        (rest : List Poll),
      mainloop s t (⟨⟨.EventError, k, c, err⟩, w⟩ :: rest) = ⟨.returned err, s, t⟩) ∧
    Run (NewSelectionUI ["apple", "banana"] "fruit") none 80 [⟨errorEvent "boom", 80⟩]
        freshTerm =
      ⟨.returned (some "boom"), NewSelectionUI ["apple", "banana"] "fruit", ⟨1, 0⟩⟩ ∧
    Prompt ["apple", "banana"] "fruit" none 80 [⟨errorEvent "boom", 80⟩] freshTerm =
      .panicked (.err "boom") ∧
    (Run (NewSelectionUI ["apple", "banana"] "fruit") none 80
        [⟨keyEvent KeySpace, 80⟩, ⟨keyEvent KeyEnter, 80⟩] freshTerm).term = ⟨1, 1⟩ ∧
    (Run (NewSelectionUI ["apple", "banana"] "fruit") none 80
        [⟨keyEvent KeyEsc, 80⟩] freshTerm).term = ⟨1, 1⟩ ∧
    (Run (NewSelectionUI ["apple", "banana"] "fruit") none 80
        [⟨chEvent 'q', 80⟩] freshTerm).term = ⟨1, 1⟩ := by
  refine ⟨?_, rfl, rfl, rfl, rfl, rfl⟩
  intro s t k c err w rest
  simp only [mainloop, handleEvent]

/-- C9 (toggle twice). In a state with N >= 1 options, one flag per option
and 0 <= cursor < N, two consecutive Toggle events are both accepted; the
first one negates the flag under the cursor, the second one restores the
selection vector, and the cursor never moves: the state after both is the
state before with the error message cleared. -/
theorem toggle_twice_restores (s : SelectionUI) (ev1 ev2 : Event)
    (hN : 1 ≤ s.Options.length) (hlen : s.Selections.length = s.Options.length)
    (h0 : 0 ≤ s.cursorIdx) (h1 : s.cursorIdx < (s.Options.length : Int))
    (he1 : isToggle ev1 = true) (he2 : isToggle ev2 = true) :
    ∃ s1 s2 b,
      handleEvent s ev1 = .next s1 ∧ handleEvent s1 ev2 = .next s2 ∧
      feed s [ev1, ev2] = .next s2 ∧
      s.Selections.get? s.cursorIdx.toNat = some b ∧
      s1.Selections.get? s.cursorIdx.toNat = some (!b) ∧
      s2.Selections.get? s.cursorIdx.toNat = some b ∧
      s2.Selections = s.Selections ∧
      s1.cursorIdx = s.cursorIdx ∧ s2.cursorIdx = s.cursorIdx ∧
      s2 = { s with errorMessage := "" } := by
  have hlt : s.cursorIdx < (s.Selections.length : Int) := by rw [hlen]; exact h1
  have hn : s.cursorIdx.toNat < s.Selections.length := by omega
  obtain ⟨b, hb, ht1⟩ := toggleSelected_ok { s with errorMessage := "" } s.cursorIdx h0 hlt
  have hs1 := handleEvent_toggle s ev1 he1
  simp only [toggleSelectedUnderCursor, ht1] at hs1
  have hb1 : (s.Selections.set s.cursorIdx.toNat (!b)).get? s.cursorIdx.toNat = some (!b) := by
    simp [List.getElem?_set, hn]
  obtain ⟨b1, hb1', ht2⟩ := toggleSelected_ok
    { s with errorMessage := "", Selections := s.Selections.set s.cursorIdx.toNat (!b) }
    s.cursorIdx h0 (by simpa using hlt)
  have hbb : b1 = !b := by
    have h := hb1'.symm.trans hb1
    exact Option.some.inj h
  subst hbb
  have hs2 := handleEvent_toggle
    { s with errorMessage := "", Selections := s.Selections.set s.cursorIdx.toNat (!b) } ev2 he2
  simp only [toggleSelectedUnderCursor, ht2, set_set_not _ _ _ hb] at hs2
  refine ⟨_, _, b, hs1, hs2, ?_, hb, hb1, hb, rfl, rfl, rfl, rfl⟩
  simp only [feed, hs1, hs2]

theorem toggle_twice_restores_witness :
    ∃ s1 s2 b,
      handleEvent ⟨["a", "b"], "x", [false, true], 1, "old"⟩ (keyEvent KeySpace) = .next s1 ∧
      handleEvent s1 (keyEvent KeySpace) = .next s2 ∧
      feed ⟨["a", "b"], "x", [false, true], 1, "old"⟩ [keyEvent KeySpace, keyEvent KeySpace] =
        .next s2 ∧
      ([false, true] : List Bool).get? (1 : Int).toNat = some b ∧
      s1.Selections.get? (1 : Int).toNat = some (!b) ∧
      s2.Selections.get? (1 : Int).toNat = some b ∧
      s2.Selections = [false, true] ∧
      s1.cursorIdx = 1 ∧ s2.cursorIdx = 1 ∧
      s2 = ⟨["a", "b"], "x", [false, true], 1, ""⟩ :=
  toggle_twice_restores ⟨["a", "b"], "x", [false, true], 1, "old"⟩ (keyEvent KeySpace)
    (keyEvent KeySpace) (by decide) (by decide) (by decide) (by decide) (by decide) (by decide)

/-- C10 (clamped cursor steps). In a state with N >= 1 options and
0 <= cursor < N, `moveCursorUp` sets the cursor to max(cursor - 1, 0) and
`moveCursorDown` to min(cursor + 1, N - 1); at cursor = 0, respectively
cursor = N - 1, the state is returned unchanged; neither changes the selection
vector or any field other than the cursor. -/
theorem cursor_moves_clamped (s : SelectionUI)
    (_hN : 1 ≤ s.Options.length) (h0 : 0 ≤ s.cursorIdx)
    (h1 : s.cursorIdx < (s.Options.length : Int)) :
    (moveCursorUp s).cursorIdx = max (s.cursorIdx - 1) 0 ∧
    (moveCursorDown s).cursorIdx = min (s.cursorIdx + 1) ((s.Options.length : Int) - 1) ∧
    (s.cursorIdx = 0 → moveCursorUp s = s) ∧
    (s.cursorIdx = (s.Options.length : Int) - 1 → moveCursorDown s = s) ∧
    (moveCursorUp s).Selections = s.Selections ∧
    (moveCursorDown s).Selections = s.Selections ∧
    moveCursorUp s = { s with cursorIdx := (moveCursorUp s).cursorIdx } ∧
    moveCursorDown s = { s with cursorIdx := (moveCursorDown s).cursorIdx } := by
  refine ⟨?_, ?_, ?_, ?_, (moveCursorUp_frame s).2.1, (moveCursorDown_frame s).2.1, ?_, ?_⟩
  · unfold moveCursorUp setCursor
    split
    · simp only []; omega
    · omega
  · unfold moveCursorDown setCursor
    split
    · simp only []; omega
    · omega
  · intro h
    unfold moveCursorUp
    rw [if_neg (by omega)]
  · intro h
    unfold moveCursorDown
    rw [if_neg (by omega)]
  · unfold moveCursorUp setCursor
    split <;> rfl
  · unfold moveCursorDown setCursor
    split <;> rfl

theorem cursor_moves_clamped_witness :
    (moveCursorUp ⟨["a", "b", "c"], "x", [false, true, false], 2, ""⟩).cursorIdx =
      max ((2 : Int) - 1) 0 ∧
    (moveCursorDown ⟨["a", "b", "c"], "x", [false, true, false], 2, ""⟩).cursorIdx =
      min ((2 : Int) + 1) (((["a", "b", "c"] : List String).length : Int) - 1) :=
  ⟨(cursor_moves_clamped ⟨["a", "b", "c"], "x", [false, true, false], 2, ""⟩
      (by decide) (by decide) (by decide)).1,
    (cursor_moves_clamped ⟨["a", "b", "c"], "x", [false, true, false], 2, ""⟩
      (by decide) (by decide) (by decide)).2.1⟩

theorem handleEvent_abort (s : SelectionUI) (ev : Event) (hev : isAbort ev = true) :
    handleEvent s ev = .breakMainloop { s with errorMessage := "" } := by
  simp only [isAbort, Bool.and_eq_true, Bool.or_eq_true, decide_eq_true_eq] at hev
  obtain ⟨h1, h2⟩ := hev
  rcases h2 with ⟨h2, h3 | h3⟩ | h2
  · simp [handleEvent, h1, h2, h3]
  · simp [handleEvent, h1, h2, h3]
  · have : ev.Ch.toNat ≠ 0 := by rw [h2]; decide
    simp [handleEvent, h1, h2, this]

theorem handleEvent_unrecognized (s : SelectionUI) (ev : Event)
    (hev : isUnrecognized ev = true) :
    handleEvent s ev = .next { s with errorMessage := "" } := by
  simp only [isUnrecognized, Bool.and_eq_true, Bool.or_eq_true, decide_eq_true_eq,
    Bool.not_eq_true', Bool.and_eq_false_iff, Bool.or_eq_false_iff, decide_eq_false_iff_not]
    at hev
  obtain ⟨⟨h1, h2⟩, ⟨h3, h4⟩, h5⟩ := hev
  unfold handleEvent
  rw [h1]
  simp only []
  by_cases hc : ev.Ch.toNat = 0
  · rcases h2 with h2 | h2
    · exact absurd hc h2
    · obtain ⟨⟨⟨⟨⟨⟨⟨a1, a2⟩, a3⟩, a4⟩, a5⟩, a6⟩, a7⟩, a8⟩ := h2
      simp [hc, a1, a2, a3, a4, a5, a6, a7, a8]
  · simp [hc, h3, h4, h5]

/-- After a key event other than a Confirm the error message is empty. -/
theorem handleEvent_clears (s : SelectionUI) (ev : Event) (hk : ev.typ = .EventKey)
    (hc : isConfirm ev = false) : (handleEvent s ev).state.errorMessage = "" := by
  have hne : ¬ (ev.Ch.toNat = 0 ∧ ev.Key = KeyEnter) := by
    intro h
    simp [isConfirm, hk, h.1, h.2] at hc
  unfold handleEvent
  rw [hk]
  simp only []
  split_ifs
  any_goals first
    | rfl
    | exact absurd (And.intro ‹ev.Ch.toNat = 0› ‹ev.Key = KeyEnter›) hne
    | exact (moveCursorUp_frame _).2.2.2
    | exact (moveCursorDown_frame _).2.2.2
  cases hts : toggleSelectedUnderCursor { s with errorMessage := "" } with
  | error p => rfl
  | ok s1 => exact (toggleSelected_frame _ _ _ hts).2.2.2

/-- C11 (error message cleared on every key event). After handling a key event
the error message is non-empty exactly when the event was a Confirm and no
selection flag was true; in that case it is the fixed notice, and after every
other key event (cursor move, toggle, abort, unrecognized key, accepted
Confirm) it is empty, whatever it was before. -/
theorem error_message_cleared (s : SelectionUI) (ev : Event) (hk : ev.typ = .EventKey) :
    ((handleEvent s ev).state.errorMessage ≠ "" ↔
      (isConfirm ev = true ∧ true ∉ s.Selections)) ∧
    (isConfirm ev = true ∧ true ∉ s.Selections →
      (handleEvent s ev).state.errorMessage = "Make a selection before continuing!") ∧
    (¬ (isConfirm ev = true ∧ true ∉ s.Selections) →
      (handleEvent s ev).state.errorMessage = "") := by
  have key : (isConfirm ev = true ∧ true ∉ s.Selections →
      (handleEvent s ev).state.errorMessage = "Make a selection before continuing!") ∧
    (¬ (isConfirm ev = true ∧ true ∉ s.Selections) →
      (handleEvent s ev).state.errorMessage = "") := by
    cases hc : isConfirm ev with
    | false =>
      refine ⟨fun h => (by cases h.1), fun _ => handleEvent_clears s ev hk hc⟩
    | true =>
      have he := handleEvent_confirm s ev hc
      cases ha : isAnyTrue s.Selections with
      | true =>
        rw [ha] at he
        refine ⟨fun h => absurd ((isAnyTrue_iff _).1 ha) h.2, fun _ => ?_⟩
        rw [he]; rfl
      | false =>
        rw [ha] at he
        have hnot : true ∉ s.Selections := fun h => by
          rw [(isAnyTrue_iff _).2 h] at ha; cases ha
        refine ⟨fun _ => ?_, fun h => absurd ⟨rfl, hnot⟩ h⟩
        rw [he]; rfl
  refine ⟨⟨fun h => ?_, fun h => ?_⟩, key.1, key.2⟩
  · by_contra hn
    exact h (key.2 hn)
  · rw [key.1 h]
    decide

theorem error_message_cleared_witness :
    (keyEvent KeyArrowDown).typ = .EventKey ∧
    ((handleEvent ⟨["a", "b"], "x", [false, false], 0, "old"⟩
        (keyEvent KeyArrowDown)).state.errorMessage ≠ "" ↔
      (isConfirm (keyEvent KeyArrowDown) = true ∧ true ∉ [false, false])) :=
  ⟨rfl, (error_message_cleared ⟨["a", "b"], "x", [false, false], 0, "old"⟩
    (keyEvent KeyArrowDown) rfl).1⟩

theorem mainloop_cons (s : SelectionUI) (t : Term) (p : Poll) (rest : List Poll) :
    mainloop s t (p :: rest) =
      match handleEvent s p.ev with
      | .next s1 =>
        match printAll s1 p.width with
        | .error e => ⟨.panicked e, s1, t⟩
        | .ok _ => mainloop s1 t rest
      | .breakMainloop s1 => ⟨.returned none, s1, deinit t⟩
      | .returnErr err s1 => ⟨.returned err, s1, t⟩
      | .panicked e s1 => ⟨.panicked e, s1, t⟩ := by
  rw [mainloop]

/-- When the main loop has consumed a list of polls and is waiting for the
next event, it goes on with the polls that follow from the state it reached. -/
theorem mainloop_append (pre : List Poll) :
    ∀ (s : SelectionUI) (t : Term) (s1 : SelectionUI) (t1 : Term),
      mainloop s t pre = ⟨.blocked, s1, t1⟩ →
      ∀ more, mainloop s t (pre ++ more) = mainloop s1 t1 more := by
  induction pre with
  | nil =>
    intro s t s1 t1 h more
    simp only [mainloop] at h
    cases h
    rfl
  | cons p rest ih =>
    intro s t s1 t1 h more
    simp only [List.cons_append]
    rw [mainloop_cons] at h ⊢
    cases hf : handleEvent s p.ev with
    | next s2 =>
      rw [hf] at h
      simp only [] at h ⊢
      cases hp : printAll s2 p.width with
      | error e => rw [hp] at h; cases h
      | ok cells =>
        rw [hp] at h
        simp only [] at h ⊢
        exact ih s2 t s1 t1 h more
    | breakMainloop s2 => rw [hf] at h; cases h
    | returnErr err s2 => rw [hf] at h; cases h
    | panicked e s2 => rw [hf] at h; cases h

/-- C12 (cancel is unconditional). In every state an Abort event (Esc or
Ctrl-C) or the letter q leaves the main loop, whatever the selection flags;
`Run` releases the display and returns nil with the selection vector
untouched. For every state `s` the session can reach (`Run` waiting for the
next event in state `s`), `Prompt` on that event returns exactly the selection
vector of `s`: flags toggled earlier stay toggled. -/
theorem cancel_unconditional (s : SelectionUI) (ev : Event) (hev : isAbort ev = true) :
    handleEvent s ev = .breakMainloop { s with errorMessage := "" } ∧
    (∀ (t : Term) (w : Int) (rest : List Poll),
      mainloop s t (⟨ev, w⟩ :: rest) =
        ⟨.returned none, { s with errorMessage := "" }, deinit t⟩) ∧
    (∀ (options : List String) (itemDesc : String) (width0 : Int) (pre : List Poll)
        (t t1 : Term) (w : Int) (rest : List Poll),
      Run (NewSelectionUI options itemDesc) none width0 pre t = ⟨.blocked, s, t1⟩ →
      Prompt options itemDesc none width0 (pre ++ ⟨ev, w⟩ :: rest) t =
        .returned s.Selections) := by
  have hb := handleEvent_abort s ev hev
  have hm : ∀ (t : Term) (w : Int) (rest : List Poll),
      mainloop s t (⟨ev, w⟩ :: rest) =
        ⟨.returned none, { s with errorMessage := "" }, deinit t⟩ := by
    intro t w rest
    simp only [mainloop, hb]
  refine ⟨hb, hm, ?_⟩
  intro options itemDesc width0 pre t t1 w rest hrun
  unfold Prompt
  unfold Run at hrun ⊢
  simp only [init] at hrun ⊢
  cases hp : printAll (NewSelectionUI options itemDesc) width0 with
  | error e => rw [hp] at hrun; cases hrun
  | ok cells =>
    rw [hp] at hrun
    simp only [] at hrun ⊢
    rw [mainloop_append pre _ _ _ _ hrun, hm]

theorem cancel_unconditional_witness :
    isAbort (keyEvent KeyEsc) = true ∧
    Prompt ["apple", "banana"] "fruit" none 80
        ([⟨keyEvent KeySpace, 80⟩] ++ ⟨keyEvent KeyEsc, 80⟩ :: []) freshTerm =
      .returned [true, false] :=
  ⟨by decide,
    (cancel_unconditional ⟨["apple", "banana"], "fruit", [true, false], 0, ""⟩
      (keyEvent KeyEsc) (by decide)).2.2 ["apple", "banana"] "fruit" 80
        [⟨keyEvent KeySpace, 80⟩] freshTerm ⟨1, 0⟩ 80 [] rfl⟩

theorem handleEvent_selections (s : SelectionUI) (ev : Event) (hev : isToggle ev = false) :
    (handleEvent s ev).state.Selections = s.Selections := by
  have hne : ¬ (ev.typ = .EventKey ∧ ev.Ch.toNat = 0 ∧ ev.Key = KeySpace) := by
    intro h
    simp [isToggle, h.1, h.2.1, h.2.2] at hev
  unfold handleEvent
  split
  · simp only []
    split_ifs
    any_goals first
      | rfl
      | exact absurd
          (And.intro ‹ev.typ = .EventKey› (And.intro ‹ev.Ch.toNat = 0› ‹ev.Key = KeySpace›)) hne
      | exact (moveCursorUp_frame _).2.1
      | exact (moveCursorDown_frame _).2.1
  · rfl
  · rfl

theorem feed_inv (evs : List Event) :
    ∀ s : SelectionUI, (feed s evs).state.Options = s.Options ∧
      (feed s evs).state.Selections.length = s.Selections.length := by
  induction evs with
  | nil => intro s; exact ⟨rfl, rfl⟩
  | cons ev rest ih =>
    intro s
    have hinv := handleEvent_inv s ev
    unfold feed
    cases hf : handleEvent s ev with
    | next s1 =>
      rw [hf] at hinv
      simp only []
      exact ⟨(ih s1).1.trans hinv.1, (ih s1).2.trans hinv.2.1⟩
    | breakMainloop s1 => rw [hf] at hinv; exact ⟨hinv.1, hinv.2.1⟩
    | returnErr err s1 => rw [hf] at hinv; exact ⟨hinv.1, hinv.2.1⟩
    | panicked e s1 => rw [hf] at hinv; exact ⟨hinv.1, hinv.2.1⟩

theorem mainloop_length (polls : List Poll) :
    ∀ (s : SelectionUI) (t : Term),
      (mainloop s t polls).ui.Selections.length = s.Selections.length := by
  induction polls with
  | nil => intro s t; rfl
  | cons p rest ih =>
    intro s t
    have hinv := (handleEvent_inv s p.ev).2.1
    unfold mainloop
    cases hf : handleEvent s p.ev with
    | next s1 =>
      rw [hf] at hinv
      simp only []
      cases hp : printAll s1 p.width with
      | error e => exact hinv
      | ok cells => simp only []; exact (ih s1 t).trans hinv
    | breakMainloop s1 => rw [hf] at hinv; exact hinv
    | returnErr err s1 => rw [hf] at hinv; exact hinv
    | panicked e s1 => rw [hf] at hinv; exact hinv

theorem Run_length (s : SelectionUI) (initErr : Option String) (width0 : Int)
    (polls : List Poll) (t : Term) :
    (Run s initErr width0 polls t).ui.Selections.length = s.Selections.length := by
  unfold Run
  cases initErr with
  | some e => rfl
  | none =>
    simp only [init]
    cases hp : printAll s width0 with
    | error e => rfl
    | ok cells => exact mainloop_length polls s _

/-- C13 (selection vector zeroed at construction, changed only by Toggle).
`NewSelectionUI` yields one flag per option, every flag false, and cursor 0.
Every event that is not a Toggle (cursor move, Confirm, Abort, letter q,
unrecognized key, and events that are no key events) leaves the selection
vector as it was. In every state reached from `NewSelectionUI`, by the state
machine alone or by `Run` with its redraws, the vector has one flag per
option. -/
theorem selections_zeroed_and_framed (options : List String) (itemDesc : String) :
    (NewSelectionUI options itemDesc).Selections = List.replicate options.length false ∧
    (NewSelectionUI options itemDesc).Selections.length = options.length ∧
    (∀ b ∈ (NewSelectionUI options itemDesc).Selections, b = false) ∧
    (NewSelectionUI options itemDesc).cursorIdx = 0 ∧
    (∀ (s : SelectionUI) (ev : Event), isToggle ev = false →
      (handleEvent s ev).state.Selections = s.Selections) ∧
    (∀ evs : List Event,
      (feed (NewSelectionUI options itemDesc) evs).state.Selections.length = options.length ∧
      (feed (NewSelectionUI options itemDesc) evs).state.Options = options) ∧
    (∀ (initErr : Option String) (width0 : Int) (polls : List Poll) (t : Term),
      (Run (NewSelectionUI options itemDesc) initErr width0 polls t).ui.Selections.length =
        options.length ∧
      (Run (NewSelectionUI options itemDesc) initErr width0 polls t).ui.Options = options) := by
  have hlen : (NewSelectionUI options itemDesc).Selections.length = options.length := by
    simp [NewSelectionUI]
  refine ⟨rfl, hlen, ?_, rfl, handleEvent_selections, ?_, ?_⟩
  · intro b hb
    exact List.eq_of_mem_replicate hb
  · intro evs
    exact ⟨((feed_inv evs _).2).trans hlen, (feed_inv evs _).1⟩
  · intro initErr width0 polls t
    exact ⟨(Run_length _ initErr width0 polls t).trans hlen, (Run_inv _ initErr width0 polls t).1⟩

/-- Without options, Cursor-Up, Cursor-Down and Confirm keep the loop going
and leave the state without options, flags and with cursor 0. -/
theorem emptyState_step (s : SelectionUI) (ev : Event) (hs : EmptyState s)
    (hev : isCursorUp ev = true ∨ isCursorDown ev = true ∨ isConfirm ev = true) :
    ∃ s1, handleEvent s ev = .next s1 ∧ EmptyState s1 := by
  obtain ⟨h1, h2, h3⟩ := hs
  rcases hev with h | h | h
  · refine ⟨_, handleEvent_cursorUp s ev h, ?_⟩
    simp [EmptyState, moveCursorUp, h1, h2, h3]
  · refine ⟨_, handleEvent_cursorDown s ev h, ?_⟩
    simp [EmptyState, moveCursorDown, h1, h2, h3]
  · have he := handleEvent_confirm s ev h
    have hA : isAnyTrue s.Selections = false := by rw [h2]; rfl
    rw [hA] at he
    exact ⟨_, he, h1, h2, h3⟩

theorem emptyState_feed (evs : List Event) :
    ∀ s : SelectionUI, EmptyState s →
      (∀ ev ∈ evs, isCursorUp ev = true ∨ isCursorDown ev = true ∨ isConfirm ev = true) →
      ∃ s1, feed s evs = .next s1 ∧ EmptyState s1 := by
  induction evs with
  | nil => intro s hs _; exact ⟨s, rfl, hs⟩
  | cons ev rest ih =>
    intro s hs hev
    obtain ⟨s1, h1, h2⟩ := emptyState_step s ev hs (hev ev (List.mem_cons_self _ _))
    obtain ⟨s2, h3, h4⟩ := ih s1 h2 (fun e he => hev e (List.mem_cons_of_mem _ he))
    refine ⟨s2, ?_, h4⟩
    simp only [feed, h1]
    exact h3

theorem emptyState_mainloop (polls : List Poll) :
    ∀ (s : SelectionUI) (t : Term), EmptyState s →
      (∀ p ∈ polls,
        isCursorUp p.ev = true ∨ isCursorDown p.ev = true ∨ isConfirm p.ev = true) →
      EmptyState (mainloop s t polls).ui ∧ (mainloop s t polls).term = t ∧
      ∀ err, (mainloop s t polls).result ≠ .returned err := by
  induction polls with
  | nil =>
    intro s t hs _
    refine ⟨hs, rfl, fun err h => ?_⟩
    simp [mainloop] at h
  | cons p rest ih =>
    intro s t hs hev
    obtain ⟨s1, h1, h2⟩ := emptyState_step s p.ev hs (hev p (List.mem_cons_self _ _))
    rw [mainloop_cons, h1]
    simp only []
    cases hp : printAll s1 p.width with
    | error e =>
      refine ⟨h2, rfl, fun err h => ?_⟩
      simp at h
    | ok cells =>
      simp only []
      exact ih s1 t h2 (fun q hq => hev q (List.mem_cons_of_mem _ hq))

/-- Without selection flags the loop is left by `break` only on Esc, Ctrl-C or
the letter q. -/
theorem break_iff_abort_of_no_flags (s : SelectionUI) (ev : Event) (hs : s.Selections = []) :
    (∃ s1, handleEvent s ev = .breakMainloop s1) ↔ isAbort ev = true := by
  constructor
  · rintro ⟨s1, h⟩
    by_contra hn
    have hab : isAbort ev = false := by simpa using hn
    simp only [isAbort, Bool.and_eq_false_iff, Bool.or_eq_false_iff, decide_eq_false_iff_not]
      at hab
    unfold handleEvent at h
    split at h
    · rename_i hk
      simp only [] at h
      rcases hab with hab | hab
      · exact hab hk
      · obtain ⟨ha, hq⟩ := hab
        split_ifs at h with c1 c2 c3 c4 c5 c6
        · rcases ha with ha | ha
          · exact ha c1
          · rcases c2 with c2 | c2
            · exact ha.1 c2
            · exact ha.2 c2
        · rw [hs] at c4
          simp [isAnyTrue] at c4
        · cases hts : toggleSelectedUnderCursor { s with errorMessage := "" } with
          | error p => rw [hts] at h; cases h
          | ok s2 => rw [hts] at h; cases h
    · cases h
    · cases h
  · intro h
    exact ⟨_, handleEvent_abort s ev h⟩

/-- Without options, an event that is neither a Toggle, nor an Abort or the
letter q, nor a backend error keeps the loop going and leaves the state
without options, flags and with cursor 0. -/
theorem emptyState_other (s : SelectionUI) (ev : Event) (hs : EmptyState s)
    (ht : isToggle ev = false) (ha : isAbort ev = false) (he : ev.typ ≠ .EventError) :
    ∃ s1, handleEvent s ev = .next s1 ∧ EmptyState s1 := by
  obtain ⟨o, d, sel, c, m⟩ := s
  obtain ⟨h1, h2, h3⟩ := hs
  simp only at h1 h2 h3
  subst h1 h2 h3
  cases hk : ev.typ with
  | EventKey =>
    simp only [isToggle, isAbort, hk, Bool.and_eq_false_iff, Bool.or_eq_false_iff,
      decide_eq_false_iff_not, decide_True, Bool.true_and] at ht ha
    unfold handleEvent
    rw [hk]
    simp only []
    split_ifs <;>
      simp_all [EmptyState, moveCursorUp, moveCursorDown, isAnyTrue, setCursor,
        toggleSelectedUnderCursor, toggleSelected]
  | EventError => exact absurd hk he
  | EventResize => exact ⟨⟨[], d, [], 0, m⟩, by simp [handleEvent, hk], rfl, rfl, rfl⟩
  | EventMouse => exact ⟨⟨[], d, [], 0, m⟩, by simp [handleEvent, hk], rfl, rfl, rfl⟩
  | EventInterrupt => exact ⟨⟨[], d, [], 0, m⟩, by simp [handleEvent, hk], rfl, rfl, rfl⟩
  | EventRaw => exact ⟨⟨[], d, [], 0, m⟩, by simp [handleEvent, hk], rfl, rfl, rfl⟩
  | EventNone => exact ⟨⟨[], d, [], 0, m⟩, by simp [handleEvent, hk], rfl, rfl, rfl⟩

theorem emptyState_mainloop_other (polls : List Poll) :
    ∀ (s : SelectionUI) (t : Term), EmptyState s →
      (∀ p ∈ polls,
        isToggle p.ev = false ∧ isAbort p.ev = false ∧ p.ev.typ ≠ .EventError) →
      EmptyState (mainloop s t polls).ui ∧ (mainloop s t polls).term = t ∧
      ∀ err, (mainloop s t polls).result ≠ .returned err := by
  induction polls with
  | nil =>
    intro s t hs _
    refine ⟨hs, rfl, fun err h => ?_⟩
    simp [mainloop] at h
  | cons p rest ih =>
    intro s t hs hev
    obtain ⟨q1, q2, q3⟩ := hev p (List.mem_cons_self _ _)
    obtain ⟨s1, h1, h2⟩ := emptyState_other s p.ev hs q1 q2 q3
    rw [mainloop_cons, h1]
    simp only []
    cases hp : printAll s1 p.width with
    | error e =>
      refine ⟨h2, rfl, fun err h => ?_⟩
      simp at h
    | ok cells =>
      simp only []
      exact ih s1 t h2 (fun q hq => hev q (List.mem_cons_of_mem _ hq))

/-- C14, as the claim states it, fails: with options = [] the session is also
ended by events that are neither Abort nor the letter q. A backend error event
makes `Run` return the error, and a Toggle ends the session with an
index-out-of-range panic. -/
theorem empty_options_other_exits :
    isAbort (errorEvent "boom") = false ∧
    (Run (NewSelectionUI [] "fruit") none 80 [⟨errorEvent "boom", 80⟩] freshTerm).result =
      .returned (some "boom") ∧
    Prompt [] "fruit" none 80 [⟨errorEvent "boom", 80⟩] freshTerm = .panicked (.err "boom") ∧
    isAbort (keyEvent KeySpace) = false ∧
    (Run (NewSelectionUI [] "fruit") none 80 [⟨keyEvent KeySpace, 80⟩] freshTerm).result =
      .panicked .indexOutOfRange ∧
    Prompt [] "fruit" none 80 [⟨keyEvent KeySpace, 80⟩] freshTerm =
      .panicked .indexOutOfRange := by
  refine ⟨by decide, rfl, rfl, by decide, rfl, rfl⟩

/-- C14 (amended). For options = [] any finite sequence of Cursor-Up,
Cursor-Down and Confirm events is accepted with the session still active: the
loop is never left, the cursor is still 0 and the selection vector is still
empty, and `Run` does not return on such events. In such a state the loop is
left by `break` exactly on an Abort event or the letter q. Toggle events apart,
every event is of one of three kinds: an Abort or the letter q, which leaves
the loop by `break`; a backend error, which makes `Run` return the error; any
other event, which keeps the session active in a state without options, flags
and with cursor 0. So `Run` does not return as long as no Toggle, no Abort,
no letter q and no backend error arrives, and it returns the error when a
backend error arrives. -/
theorem empty_options_degenerate (itemDesc : String) (evs : List Event)
    (hev : ∀ ev ∈ evs,
      isCursorUp ev = true ∨ isCursorDown ev = true ∨ isConfirm ev = true) :
    (∃ s1, feed (NewSelectionUI [] itemDesc) evs = .next s1 ∧
      s1.cursorIdx = 0 ∧ s1.Selections = [] ∧ s1.Options = []) ∧
    (∀ (width0 : Int) (widths : List Int) (t : Term), widths.length = evs.length →
      (Run (NewSelectionUI [] itemDesc) none width0 (List.zipWith Poll.mk evs widths) t).ui.cursorIdx
        = 0 ∧
      (Run (NewSelectionUI [] itemDesc) none width0 (List.zipWith Poll.mk evs widths) t).ui.Selections
        = [] ∧
      ∀ err, (Run (NewSelectionUI [] itemDesc) none width0
        (List.zipWith Poll.mk evs widths) t).result ≠ .returned err) ∧
    (∀ (s : SelectionUI) (ev : Event), EmptyState s →
      ((∃ s1, handleEvent s ev = .breakMainloop s1) ↔ isAbort ev = true)) ∧
    (∀ (s : SelectionUI) (ev : Event), EmptyState s → isToggle ev = false →
      (isAbort ev = true ∧ handleEvent s ev = .breakMainloop { s with errorMessage := "" }) ∨
      (ev.typ = .EventError ∧ handleEvent s ev = .returnErr ev.Err s) ∨
      (isAbort ev = false ∧ ev.typ ≠ .EventError ∧
        ∃ s1, handleEvent s ev = .next s1 ∧ EmptyState s1)) ∧
    (∀ (width0 : Int) (polls : List Poll) (t : Term),
      (∀ p ∈ polls,
        isToggle p.ev = false ∧ isAbort p.ev = false ∧ p.ev.typ ≠ .EventError) →
      EmptyState (Run (NewSelectionUI [] itemDesc) none width0 polls t).ui ∧
      ∀ err, (Run (NewSelectionUI [] itemDesc) none width0 polls t).result ≠ .returned err) ∧
    (∀ (width0 : Int) (pre : List Poll) (t t1 : Term) (s : SelectionUI) (ev : Event) (w : Int)
        (rest : List Poll),
      Run (NewSelectionUI [] itemDesc) none width0 pre t = ⟨.blocked, s, t1⟩ →
      ev.typ = .EventError →
      Run (NewSelectionUI [] itemDesc) none width0 (pre ++ ⟨ev, w⟩ :: rest) t =
        ⟨.returned ev.Err, s, t1⟩) := by
  have h0 : EmptyState (NewSelectionUI [] itemDesc) := ⟨rfl, rfl, rfl⟩
  refine ⟨?_, ?_, fun s ev hs => break_iff_abort_of_no_flags s ev hs.2.1, ?_, ?_, ?_⟩
  · obtain ⟨s1, h1, h2, h3, h4⟩ := emptyState_feed evs _ h0 hev
    exact ⟨s1, h1, h4, h3, h2⟩
  · intro width0 widths t _
    have hpolls : ∀ p ∈ List.zipWith Poll.mk evs widths,
        isCursorUp p.ev = true ∨ isCursorDown p.ev = true ∨ isConfirm p.ev = true := by
      intro p hp
      obtain ⟨i, hi, rfl⟩ := List.mem_iff_getElem.1 hp
      simp only [List.getElem_zipWith]
      exact hev _ (List.getElem_mem _)
    unfold Run
    simp only [init]
    cases hp : printAll (NewSelectionUI [] itemDesc) width0 with
    | error e =>
      refine ⟨rfl, rfl, fun err h => ?_⟩
      simp at h
    | ok cells =>
      simp only []
      obtain ⟨⟨-, h2, h3⟩, -, h4⟩ := emptyState_mainloop (List.zipWith Poll.mk evs widths)
        (NewSelectionUI [] itemDesc) { t with inits := t.inits + 1 } h0 hpolls
      exact ⟨h3, h2, h4⟩
  · intro s ev hs ht
    cases ha : isAbort ev with
    | true => exact Or.inl ⟨rfl, handleEvent_abort s ev ha⟩
    | false =>
      by_cases he : ev.typ = .EventError
      · refine Or.inr (Or.inl ⟨he, ?_⟩)
        simp only [handleEvent, he]
      · exact Or.inr (Or.inr ⟨rfl, he, emptyState_other s ev hs ht ha he⟩)
  · intro width0 polls t hq
    unfold Run
    simp only [init]
    cases hp : printAll (NewSelectionUI [] itemDesc) width0 with
    | error e =>
      refine ⟨h0, fun err h => ?_⟩
      simp at h
    | ok cells =>
      simp only []
      obtain ⟨h1, -, h3⟩ := emptyState_mainloop_other polls
        (NewSelectionUI [] itemDesc) { t with inits := t.inits + 1 } h0 hq
      exact ⟨h1, h3⟩
  · intro width0 pre t t1 s ev w rest hrun he
    unfold Run at hrun ⊢
    simp only [init] at hrun ⊢
    cases hp : printAll (NewSelectionUI [] itemDesc) width0 with
    | error e => rw [hp] at hrun; cases hrun
    | ok cells =>
      rw [hp] at hrun
      simp only [] at hrun ⊢
      rw [mainloop_append pre _ _ _ _ hrun, mainloop_cons]
      simp only [handleEvent, he]

theorem empty_options_degenerate_witness :
    ∃ s1, feed (NewSelectionUI [] "fruit")
        [keyEvent KeyEnter, keyEvent KeyArrowDown, chEvent 'k', keyEvent KeyEnter] = .next s1 ∧
      s1.cursorIdx = 0 ∧ s1.Selections = [] ∧ s1.Options = [] :=
  (empty_options_degenerate "fruit"
    [keyEvent KeyEnter, keyEvent KeyArrowDown, chEvent 'k', keyEvent KeyEnter]
    (by decide)).1

/-- C15 (empty text). For every origin, every terminal width (also one that
gives wrap width 0) and all colours, `printText` on the empty string sets no
cell and returns originRow + 1. -/
theorem empty_text_layout (width originX originY : Int) (fg bg : Attribute) :
    printText width originX originY "" fg bg = .ok ([], originY + 1) := by
  rfl

/-- C16 (unrecognized input). A key event that has no character and a key
other than Esc, Ctrl-C, Enter, Arrow-Up, Ctrl-P, Arrow-Down, Ctrl-N, Space, or
that has a character other than k, j, q, keeps the loop going and changes
nothing but the error message, which it clears: cursor, selection vector and
options are as before. -/
theorem unrecognized_is_noop (s : SelectionUI) (ev : Event)
    (hev : isUnrecognized ev = true) :
    handleEvent s ev = .next { s with errorMessage := "" } ∧
    (∃ s1, handleEvent s ev = .next s1 ∧ s1.cursorIdx = s.cursorIdx ∧
      s1.Selections = s.Selections ∧ s1.Options = s.Options) := by
  have h := handleEvent_unrecognized s ev hev
  exact ⟨h, _, h, rfl, rfl, rfl⟩

theorem unrecognized_is_noop_witness :
    isUnrecognized (chEvent 'x') = true ∧
    handleEvent ⟨["a", "b"], "x", [false, true], 1, "old"⟩ (chEvent 'x') =
      .next ⟨["a", "b"], "x", [false, true], 1, ""⟩ :=
  ⟨by decide, (unrecognized_is_noop ⟨["a", "b"], "x", [false, true], 1, "old"⟩ (chEvent 'x')
    (by decide)).1⟩

/-- C17 (toggle changes exactly one flag). In a state with N >= 1 options, one
flag per option and 0 <= cursor < N, a Toggle event keeps the loop going and
yields a selection vector of the same length whose flag at the cursor index is
the negation of the old one and whose flag at every other index is unchanged;
cursor and options are unchanged. -/
theorem toggle_flips_one_flag (s : SelectionUI) (ev : Event)
    (hN : 1 ≤ s.Options.length) (hlen : s.Selections.length = s.Options.length)
    (h0 : 0 ≤ s.cursorIdx) (h1 : s.cursorIdx < (s.Options.length : Int))
    (hev : isToggle ev = true) :
    ∃ s1 b,
      handleEvent s ev = .next s1 ∧
      s1.Selections.length = s.Selections.length ∧
      s.Selections.get? s.cursorIdx.toNat = some b ∧
      s1.Selections.get? s.cursorIdx.toNat = some (!b) ∧
      (∀ j : Nat, j ≠ s.cursorIdx.toNat → s1.Selections.get? j = s.Selections.get? j) ∧
      s1.cursorIdx = s.cursorIdx ∧ s1.Options = s.Options := by
  have hlt : s.cursorIdx < (s.Selections.length : Int) := by rw [hlen]; exact h1
  have hn : s.cursorIdx.toNat < s.Selections.length := by omega
  obtain ⟨b, hb, ht⟩ := toggleSelected_ok { s with errorMessage := "" } s.cursorIdx h0 hlt
  have hs1 := handleEvent_toggle s ev hev
  simp only [toggleSelectedUnderCursor, ht] at hs1
  refine ⟨_, b, hs1, by simp, hb, ?_, ?_, rfl, rfl⟩
  · simp [List.getElem?_set, hn]
  · intro j hj
    simp [List.getElem?_set, Ne.symm hj]

theorem toggle_flips_one_flag_witness :
    ∃ s1 b,
      handleEvent ⟨["a", "b"], "x", [false, true], 1, "old"⟩ (keyEvent KeySpace) = .next s1 ∧
      s1.Selections.length = ([false, true] : List Bool).length ∧
      ([false, true] : List Bool).get? (1 : Int).toNat = some b ∧
      s1.Selections.get? (1 : Int).toNat = some (!b) ∧
      (∀ j : Nat, j ≠ (1 : Int).toNat → s1.Selections.get? j =
        ([false, true] : List Bool).get? j) ∧
      s1.cursorIdx = 1 ∧ s1.Options = ["a", "b"] :=
  toggle_flips_one_flag ⟨["a", "b"], "x", [false, true], 1, "old"⟩ (keyEvent KeySpace)
    (by decide) (by decide) (by decide) (by decide) (by decide)

theorem runeLen_pos (c : Char) : 1 ≤ runeLen c := by
  unfold runeLen
  split_ifs <;> omega

/-- The byte offsets of a range start at the first offset and increase
strictly. -/
theorem rangeFrom_sorted (cs : List Char) :
    ∀ i, (∀ p ∈ rangeFrom i cs, i ≤ p.1) ∧
      (rangeFrom i cs).Pairwise (fun p q => p.1 < q.1) := by
  induction cs with
  | nil => intro i; exact ⟨fun p hp => (by cases hp), List.Pairwise.nil⟩
  | cons c rest ih =>
    intro i
    obtain ⟨h1, h2⟩ := ih (i + runeLen c)
    have hpos := runeLen_pos c
    constructor
    · intro p hp
      simp only [rangeFrom, List.mem_cons] at hp
      rcases hp with rfl | hp
      · exact Nat.le_refl _
      · have := h1 p hp
        omega
    · simp only [rangeFrom]
      refine List.Pairwise.cons (fun q hq => ?_) h2
      have := h1 q hq
      show i < q.1
      omega

theorem rangeFrom_length (cs : List Char) : ∀ i, (rangeFrom i cs).length = cs.length := by
  induction cs with
  | nil => intro i; rfl
  | cons c rest ih => intro i; simp [rangeFrom, ih]

theorem rangeFrom_runes (cs : List Char) : ∀ i, (rangeFrom i cs).map Prod.snd = cs := by
  induction cs with
  | nil => intro i; rfl
  | cons c rest ih => intro i; simp [rangeFrom, ih]

/-- Pairs with different offsets go to different cells. -/
theorem cellAt_injective (originX originY wrapWidth : Int) (fg bg : Attribute)
    (p q : Nat × Char) (hpq : p.1 ≠ q.1) :
    ((cellAt originX originY wrapWidth fg bg p).x, (cellAt originX originY wrapWidth fg bg p).y) ≠
    ((cellAt originX originY wrapWidth fg bg q).x, (cellAt originX originY wrapWidth fg bg q).y) := by
  intro h
  have hx := congrArg Prod.fst h
  have hy := congrArg Prod.snd h
  simp only [cellAt] at hx hy
  have hd : Int.tdiv (p.1 : Int) wrapWidth = Int.tdiv (q.1 : Int) wrapWidth := by omega
  rw [hd] at hx
  have hm : Int.tmod (p.1 : Int) wrapWidth = Int.tmod (q.1 : Int) wrapWidth := by
    split_ifs at hx <;> omega
  have e1 := Int.tmod_add_tdiv (p.1 : Int) wrapWidth
  have e2 := Int.tmod_add_tdiv (q.1 : Int) wrapWidth
  rw [hd, hm] at e1
  have : (p.1 : Int) = (q.1 : Int) := e1.symm.trans e2
  exact hpq (by exact_mod_cast this)

/-- With a positive wrap width, a later offset is laid out on the same or a
later row. -/
theorem row_mono (originY wrapWidth : Int) (hW : 1 ≤ wrapWidth) (i j : Nat) (hij : i ≤ j) :
    originY + Int.tdiv (i : Int) wrapWidth ≤ originY + Int.tdiv (j : Int) wrapWidth := by
  rw [Int.tdiv_eq_ediv (Int.ofNat_nonneg _) (by omega),
    Int.tdiv_eq_ediv (Int.ofNat_nonneg _) (by omega)]
  have := Int.ediv_le_ediv (a := (i : Int)) (b := (j : Int)) (c := wrapWidth) (by omega)
    (by exact_mod_cast hij)
  omega

/-- With a positive wrap width and increasing offsets, the final value of `y`
is the largest row used, and not less than the initial value when that is
below every row used. -/
theorem lastRow_bounds (originY wrapWidth : Int) (hW : 1 ≤ wrapWidth)
    (l : List (Nat × Char)) :
    l.Pairwise (fun p q => p.1 < q.1) →
    ∀ y0, (∀ q ∈ l, y0 ≤ originY + Int.tdiv (q.1 : Int) wrapWidth) →
      y0 ≤ lastRow originY wrapWidth l y0 ∧
      ∀ q ∈ l, originY + Int.tdiv (q.1 : Int) wrapWidth ≤ lastRow originY wrapWidth l y0 := by
  induction l with
  | nil => intro _ y0 _; exact ⟨Int.le_refl _, fun q hq => (by cases hq)⟩
  | cons p rest ih =>
    intro hp y0 hy0
    obtain ⟨hp1, hp2⟩ := List.pairwise_cons.1 hp
    obtain ⟨i, r⟩ := p
    have hrest : ∀ q ∈ rest,
        originY + Int.tdiv (i : Int) wrapWidth ≤ originY + Int.tdiv (q.1 : Int) wrapWidth :=
      fun q hq => row_mono originY wrapWidth hW i q.1 (Nat.le_of_lt (hp1 q hq))
    obtain ⟨h1, h2⟩ := ih hp2 _ hrest
    have hy := hy0 (i, r) (List.mem_cons_self _ _)
    simp only [lastRow]
    refine ⟨by simp only [] at hy; omega, fun q hq => ?_⟩
    rcases List.mem_cons.1 hq with rfl | hq
    · exact h1
    · exact h2 q hq

/-- C18 (layout never overwrites itself). With wrap width
terminalWidth - originColumn - 3 >= 1, `printText` completes and sets one cell
per character of the text, in text order; no two of these cells have the same
(column, row), and every cell lies on a row r with
originRow <= r < returned next row. -/
theorem layout_no_overwrite (width originX originY : Int) (text : String)
    (fg bg : Attribute) (hW : 1 ≤ width - originX - 3) :
    ∃ cells ny, printText width originX originY text fg bg = .ok (cells, ny) ∧
      cells.length = text.length ∧
      cells.map Cell.ch = text.data ∧
      (cells.map (fun c => (c.x, c.y))).Nodup ∧
      ∀ c ∈ cells, originY ≤ c.y ∧ c.y < ny := by
  have hsorted := rangeFrom_sorted text.data 0
  have hrows : ∀ q ∈ rangeString text,
      originY ≤ originY + Int.tdiv (q.1 : Int) (width - originX - 3) := by
    intro q _
    have := Int.tdiv_nonneg (Int.ofNat_nonneg q.1) (show (0 : Int) ≤ width - originX - 3 by omega)
    omega
  obtain ⟨hl1, hl2⟩ := lastRow_bounds originY (width - originX - 3) hW (rangeString text)
    hsorted.2 originY hrows
  refine ⟨_, _, printText_eq width originX originY text fg bg (by omega), ?_, ?_, ?_, ?_⟩
  · rw [List.length_map, rangeString, rangeFrom_length]
    rfl
  · rw [List.map_map]
    exact rangeFrom_runes text.data 0
  · rw [List.map_map]
    refine List.Pairwise.map _ (fun p q hpq => ?_) hsorted.2
    exact cellAt_injective originX originY (width - originX - 3) fg bg p q (Nat.ne_of_lt hpq)
  · intro c hc
    obtain ⟨p, hp, rfl⟩ := List.mem_map.1 hc
    have h1 := hrows p hp
    have h2 := hl2 p hp
    simp only [cellAt]
    omega

theorem layout_no_overwrite_witness :
    (1 : Int) ≤ 6 - 0 - 3 ∧
    ∃ cells ny, printText 6 0 0 "ééé" defaultFg defaultBg = .ok (cells, ny) ∧
      cells.length = "ééé".length ∧
      cells.map Cell.ch = "ééé".data ∧
      (cells.map (fun c => (c.x, c.y))).Nodup ∧
      ∀ c ∈ cells, (0 : Int) ≤ c.y ∧ c.y < ny :=
  ⟨by decide, layout_no_overwrite 6 0 0 "ééé" defaultFg defaultBg (by decide)⟩

/-- With a positive wrap width `printText` completes, returns a row below the
origin row, and sets its cells between the two, from the origin column on. -/
theorem printText_rows (width originX originY : Int) (text : String) (fg bg : Attribute)
    (hW : 1 ≤ width - originX - 3) :
    ∃ cells ny, printText width originX originY text fg bg = .ok (cells, ny) ∧
      originY < ny ∧ ∀ c ∈ cells, originY ≤ c.y ∧ c.y < ny ∧ originX ≤ c.x := by
  have hsorted := rangeFrom_sorted text.data 0
  have hrows : ∀ q ∈ rangeString text,
      originY ≤ originY + Int.tdiv (q.1 : Int) (width - originX - 3) := by
    intro q _
    have := Int.tdiv_nonneg (Int.ofNat_nonneg q.1) (show (0 : Int) ≤ width - originX - 3 by omega)
    omega
  obtain ⟨hl1, hl2⟩ := lastRow_bounds originY (width - originX - 3) hW (rangeString text)
    hsorted.2 originY hrows
  refine ⟨_, _, printText_eq width originX originY text fg bg (by omega), by omega, ?_⟩
  intro c hc
  obtain ⟨p, hp, rfl⟩ := List.mem_map.1 hc
  have h2 := hl2 p hp
  obtain ⟨b1, b2, b3⟩ := cellAt_bounds originX originY (width - originX - 3) fg bg hW p
  refine ⟨b1, ?_, ?_⟩
  · simp only [cellAt] at h2 ⊢
    omega
  · rcases b1.lt_or_eq with h | h
    · have := (b3 h).1; omega
    · exact (b2 h.symm).1

/-- The row after a list of blocks is the row returned for the last block. -/
theorem blocksNext_eq_last (bs : List OptionBlock) :
    ∀ y, blocksNext y bs = (bs.getLast?.map OptionBlock.next).getD y := by
  induction bs with
  | nil => intro y; rfl
  | cons b rest ih =>
    intro y
    simp only [blocksNext, ih]
    cases rest with
    | nil => rfl
    | cons b2 rest2 =>
      rw [List.getLast?_cons_cons]
      cases h : (b2 :: rest2).getLast? with
      | none => simp at h
      | some z => rfl

/-- The loop of `printOptions` from option index `i` and row `y` on, when the
wrap width of the option texts is positive and there is a flag for every
option: one block per option, stacked from `y` on. -/
theorem optionBlocks_spec (s : SelectionUI) (width x : Int) (hW : 1 ≤ width - (x + 2) - 3)
    (opts : List String) :
    ∀ (i : Nat) (y : Int), i + opts.length ≤ s.Selections.length →
      ∃ bs, optionBlocks s width x i opts y = .ok bs ∧
        printOptionsLoop s width x i opts y = .ok (blocksCells bs, blocksNext y bs) ∧
        bs.length = opts.length ∧
        (∀ b, bs.head? = some b → b.start = y) ∧
        (∀ b ∈ bs, y ≤ b.start) ∧
        y ≤ blocksNext y bs ∧
        bs.Chain' (fun a b => b.start = a.next) ∧
        bs.Pairwise (fun a b => a.next ≤ b.start) ∧
        (∀ b ∈ bs, b.start < b.next ∧
          ∀ c ∈ b.cells, b.start ≤ c.y ∧ c.y < b.next ∧ x + 2 ≤ c.x) ∧
        (∀ (k : Nat) (b : OptionBlock), bs.get? k = some b →
          b.marker = (if ((i + k : Nat) : Int) = s.cursorIdx
            then [Cell.mk x b.start cursorGlyph defaultFg defaultBg] else []) ∧
          ∃ opt sel, opts.get? k = some opt ∧ s.Selections.get? (i + k) = some sel ∧
            printText width (x + 2) b.start opt
              (if sel then Attribute.ColorGreenBold else defaultFg) defaultBg =
                .ok (b.cells, b.next)) := by
  induction opts with
  | nil =>
    intro i y _
    refine ⟨[], rfl, rfl, rfl, ?_, ?_, Int.le_refl _, List.chain'_nil, List.Pairwise.nil, ?_, ?_⟩
    · intro b hb; cases hb
    · intro b hb; cases hb
    · intro b hb; cases hb
    · intro k b hb; cases hb
  | cons opt rest ih =>
    intro i y hlen
    simp only [List.length_cons] at hlen
    have hi : i < s.Selections.length := by omega
    have hsel : s.Selections.get? i = some (s.Selections.get ⟨i, hi⟩) := List.get?_eq_get hi
    obtain ⟨cells, y1, hpt, hy1, hcells⟩ := printText_rows width (x + 2) y opt
      (if s.Selections.get ⟨i, hi⟩ then Attribute.ColorGreenBold else defaultFg) defaultBg hW
    obtain ⟨bs, h1, h2, h3, h4, h5, h6, h7, h8, h9, h10⟩ := ih (i + 1) y1 (by omega)
    refine ⟨⟨y, y1, if (i : Int) = s.cursorIdx
        then [Cell.mk x y cursorGlyph defaultFg defaultBg] else [], cells⟩ :: bs,
      ?_, ?_, ?_, ?_, ?_, ?_, ?_, ?_, ?_, ?_⟩
    · simp only [optionBlocks, hsel, hpt, h1]
    · simp only [printOptionsLoop, hsel, hpt, h2, blocksCells, blocksNext]
    · simp [h3]
    · intro b hb
      simp only [List.head?_cons, Option.some.injEq] at hb
      rw [← hb]
    · intro b hb
      rcases List.mem_cons.1 hb with rfl | hb
      · exact Int.le_refl _
      · have := h5 b hb
        omega
    · simp only [blocksNext]
      omega
    · rw [List.chain'_cons']
      refine ⟨fun b hb => ?_, h7⟩
      exact h4 b (by simpa using hb)
    · exact List.Pairwise.cons (fun b hb => h5 b hb) h8
    · intro b hb
      rcases List.mem_cons.1 hb with rfl | hb
      · exact ⟨hy1, hcells⟩
      · exact h9 b hb
    · intro k b hb
      cases k with
      | zero =>
        simp only [List.get?_cons_zero, Option.some.injEq] at hb
        subst hb
        refine ⟨by simp, opt, s.Selections.get ⟨i, hi⟩, by simp, by simp, hpt⟩
      | succ k =>
        simp only [List.get?_cons_succ] at hb
        obtain ⟨m1, opt2, sel2, m2, m3, m4⟩ := h10 k b hb
        have e : i + (k + 1) = i + 1 + k := by omega
        refine ⟨?_, opt2, sel2, by simpa using m2, ?_, m4⟩
        · rw [m1, e]
        · rw [e]; exact m3

/-- C19 (option rows stack without overlap). In a state with one flag per
option and for a terminal width that gives the option texts a wrap width
>= 1, `printOptions` completes with one block per option. Block k is option k
drawn by `printText` from its start row, in the colour of its flag. The first
block starts at originY and every further block starts at exactly the row
returned for the block before it. The text cells of a block lie on rows from
its start row up to, not including, its returned row, so the cells of an
earlier option lie on rows strictly above those of every later option. The
cursor marker is the single cell (x, start row) of the block at the cursor
index, no other block has a marker, and no option character is set in column
x. The value returned is the row returned for the last option, originY when
there are no options. -/
theorem options_stack (s : SelectionUI) (width x originY : Int)
    (hW : 1 ≤ width - (x + 2) - 3) (hlen : s.Selections.length = s.Options.length) :
    ∃ bs ret, printOptions s width x originY = .ok (blocksCells bs, ret) ∧
      optionBlocks s width x 0 s.Options originY = .ok bs ∧
      bs.length = s.Options.length ∧
      (∀ (k : Nat) (b : OptionBlock), bs.get? k = some b →
        ∃ opt sel, s.Options.get? k = some opt ∧ s.Selections.get? k = some sel ∧
          printText width (x + 2) b.start opt
            (if sel then Attribute.ColorGreenBold else defaultFg) defaultBg =
              .ok (b.cells, b.next)) ∧
      (∀ b, bs.head? = some b → b.start = originY) ∧
      bs.Chain' (fun a b => b.start = a.next) ∧
      (∀ b ∈ bs, b.start < b.next ∧ ∀ c ∈ b.cells, b.start ≤ c.y ∧ c.y < b.next) ∧
      bs.Pairwise (fun a b => a.next ≤ b.start) ∧
      bs.Pairwise (fun a b => ∀ c ∈ a.cells, ∀ d ∈ b.cells, c.y < d.y) ∧
      (∀ (k : Nat) (b : OptionBlock), bs.get? k = some b →
        b.marker = (if (k : Int) = s.cursorIdx
          then [Cell.mk x b.start cursorGlyph defaultFg defaultBg] else [])) ∧
      (∀ b ∈ bs, ∀ c ∈ b.cells, c.x ≠ x) ∧
      ret = (bs.getLast?.map OptionBlock.next).getD originY ∧
      (s.Options = [] → ret = originY) := by
  obtain ⟨bs, h1, h2, h3, h4, h5, h6, h7, h8, h9, h10⟩ :=
    optionBlocks_spec s width x hW s.Options 0 originY (by omega)
  refine ⟨bs, blocksNext originY bs, h2, h1, h3, ?_, h4, h7, ?_, h8, ?_, ?_, ?_,
    blocksNext_eq_last bs originY, ?_⟩
  · intro k b hb
    obtain ⟨-, opt, sel, m2, m3, m4⟩ := h10 k b hb
    exact ⟨opt, sel, m2, by simpa using m3, m4⟩
  · intro b hb
    exact ⟨(h9 b hb).1, fun c hc => ⟨((h9 b hb).2 c hc).1, ((h9 b hb).2 c hc).2.1⟩⟩
  · refine List.Pairwise.imp_of_mem (fun {a b} ha hb hab c hc d hd => ?_) h8
    have e1 := ((h9 a ha).2 c hc).2.1
    have e2 := ((h9 b hb).2 d hd).1
    omega
  · intro k b hb
    have := (h10 k b hb).1
    simpa using this
  · intro b hb c hc
    have := ((h9 b hb).2 c hc).2.2
    omega
  · intro hopt
    have : bs = [] := by
      apply List.eq_nil_of_length_eq_zero
      rw [h3, hopt]
      rfl
    rw [this]
    rfl

theorem options_stack_witness :
    (1 : Int) ≤ 12 - (2 + 2) - 3 ∧
    ([false, true] : List Bool).length = (["apple", "banana"] : List String).length ∧
    ∃ bs ret, printOptions ⟨["apple", "banana"], "fruit", [false, true], 1, ""⟩ 12 2 3 =
        .ok (blocksCells bs, ret) ∧
      bs.length = (["apple", "banana"] : List String).length ∧
      bs.Pairwise (fun a b => ∀ c ∈ a.cells, ∀ d ∈ b.cells, c.y < d.y) := by
  obtain ⟨bs, ret, h1, -, h3, -, -, -, -, -, h9, -⟩ :=
    options_stack ⟨["apple", "banana"], "fruit", [false, true], 1, ""⟩ 12 2 3
      (by decide) (by decide)
  exact ⟨by decide, by decide, bs, ret, h1, h3, h9⟩

end SelectionUi
